import Mathlib

/-!
Verification of the frontend-auditor-agent repository.

The development embeds, as Lean functions, the audit engine
(`src/audit/audit-engine.js`), the GitHub client
(`src/services/github-mcp-client.js`) and the constants of
`src/config/mcp-config.js`.  JavaScript strings are Lean `String`s, compared
through their character lists so that everything evaluates in the kernel;
JSON values parsed by `JSON.parse` are a `Json` inductive, the parse itself is
an explicit parameter (a thrown parse error is `none`); remote I/O is a
`GhEnv` environment mapping a path to the GitHub response or to a raised
error.  JavaScript exceptions that the source catches are modelled by the
value the catching handler produces.
-/

/-! ## JavaScript string helpers (character-list based, kernel-computable) -/

/-- Embedding of `a.startsWith(b)`. -/
def strStartsWith (s pre : String) : Bool :=
  pre.toList.isPrefixOf s.toList

/-- Embedding of `a.endsWith(b)`. -/
def strEndsWith (s suf : String) : Bool :=
  suf.toList.isSuffixOf s.toList

/-- Embedding of `a.includes(b)`: unanchored substring membership. -/
def jsIncludes (s sub : String) : Bool :=
  s.toList.tails.any (fun t => sub.toList.isPrefixOf t)

/-! ## JSON values -/

/-- The result of `JSON.parse`: a JSON value.  Numbers are modelled as
integers; the audit engine only ever tests truthiness of the values it reads,
so fractional parts are irrelevant to every claim. -/
inductive Json where
  | null
  | bool (b : Bool)
  | num (n : Int)
  | str (s : String)
  | arr (elems : List Json)
  | obj (fields : List (String × Json))

/-- True exactly on `Json.null`. -/
def Json.isNull : Json → Bool
  | .null => true
  | _ => false

/-- JavaScript truthiness of a possibly-undefined value (`none` plays
`undefined`): `undefined`, `null`, `false`, `0` and the empty string are
falsy, everything else is truthy. -/
def jsTruthy : Option Json → Bool
  | none => false
  | some .null => false
  | some (.bool b) => b
  | some (.num n) => n != 0
  | some (.str s) => s != ""
  | some (.arr _) => true
  | some (.obj _) => true

/-- Property access `v[k]` on a non-null JavaScript value: objects look up
the key (first binding wins), any other value has no such own property and
yields `undefined` (`none`).  Access on `null` throws; callers model that
throw explicitly before using `jget`. -/
def jget : Json → String → Option Json
  | .obj fields, k => (fields.find? (fun p => p.1 == k)).map (fun p => p.2)
  | _, _ => none

/-- Optional-chaining access `v?.[k]` where `v` may be `undefined` or
`null`: those yield `undefined` instead of throwing. -/
def jgetOpt : Option Json → String → Option Json
  | none, _ => none
  | some j, k => jget j k

/-! ## Severities and audit data model (`mcp-config.js`, audit engine) -/

/-- The five `SEVERITY_LEVELS` values of `mcp-config.js`. -/
inductive Severity where
  | critical
  | high
  | medium
  | low
  | info
deriving DecidableEq, Repr

/-- One finding, as pushed by `addIssue`. -/
structure Issue where
  severity : Severity
  message : String
  description : String
  file : String
  suggestion : Option String := none
deriving DecidableEq, Repr

/-- A fetched file, as returned by `getFileContent` (`content` is the
base64-decoded text; decoding itself is not modelled). -/
structure FileRecord where
  path : String
  content : String
  size : Nat
  sha : String
deriving DecidableEq, Repr

/-- The `metadata` part of the chunked repository data. -/
structure RepoMetadata where
  owner : String
  repo : String
  fetchedAt : String
  totalFiles : Nat
deriving DecidableEq, Repr

/-- The value built by `getRepositoryDataChunked`. -/
structure RepositoryDataset where
  packageFiles : List FileRecord
  configFiles : List FileRecord
  metadata : RepoMetadata
deriving DecidableEq, Repr

/-- One entry of `auditReport.categories`. -/
structure CategoryResult where
  issues : List Issue
  score : Int
deriving DecidableEq, Repr

/-- The `summary` object of an audit report. -/
structure Summary where
  totalIssues : Nat
  criticalIssues : Nat
  highIssues : Nat
  mediumIssues : Nat
  lowIssues : Nat
  complianceScore : Int
deriving DecidableEq, Repr

/-- The audit report.  `categories` is a JavaScript object keyed by category
name, modelled as an insertion-ordered association list (fresh keys are
appended, existing keys updated in place), matching `Object.values` order. -/
structure AuditReport where
  owner : String
  repo : String
  timestamp : String
  summary : Summary
  categories : List (String × CategoryResult)
  recommendations : List String
deriving DecidableEq, Repr

/-- The six category names of `AUDIT_CATEGORIES` used by the engine. -/
def CAT_STRUCTURE : String := "Repository Structure"

/-- Category name `AUDIT_CATEGORIES.DEPENDENCIES`. -/
def CAT_DEPENDENCIES : String := "Dependencies & Package Management"

/-- Category name `AUDIT_CATEGORIES.BUILD`. -/
def CAT_BUILD : String := "Build Configuration"

/-- Category name `AUDIT_CATEGORIES.CODE_QUALITY`. -/
def CAT_CODE_QUALITY : String := "Code Quality & Standards"

/-- Category name `AUDIT_CATEGORIES.TESTING`. -/
def CAT_TESTING : String := "Testing Setup"

/-- Category name `AUDIT_CATEGORIES.DOCUMENTATION`. -/
def CAT_DOCUMENTATION : String := "Documentation"

/-! ## The categories association list -/

/-- Assignment `categories[k] = v` on a JavaScript object: overwrite the
existing binding in place, or append a fresh one. -/
def setCategory (cats : List (String × CategoryResult)) (k : String)
    (v : CategoryResult) : List (String × CategoryResult) :=
  if cats.any (fun p => p.1 == k) then
    cats.map (fun p => if p.1 == k then (k, v) else p)
  else
    cats ++ [(k, v)]

/-- Lookup `categories[k]` (`none` plays `undefined`). -/
def getCategory (cats : List (String × CategoryResult)) (k : String) :
    Option CategoryResult :=
  (cats.find? (fun p => p.1 == k)).map (fun p => p.2)

/-- In-place mutation of the binding at `k` (used by `addIssue`; every call
site has initialized the key first, so the no-binding case never fires). -/
def updateCategory (cats : List (String × CategoryResult)) (k : String)
    (f : CategoryResult → CategoryResult) : List (String × CategoryResult) :=
  cats.map (fun p => if p.1 == k then (p.1, f p.2) else p)

/-! ## AuditEngine.addIssue -/

/-- Embedding of `AuditEngine.addIssue`: push the issue, bump
`summary.totalIssues`, then switch on the severity to bump the matching
per-severity counter and deduct from the category score (critical 25,
high 15, medium 10, low 5; `info` hits no case), and finally clamp the
category score at 0 with `Math.max`. -/
def addIssue (report : AuditReport) (category : String) (issue : Issue) :
    AuditReport :=
  let s0 := report.summary
  let s1 := { s0 with totalIssues := s0.totalIssues + 1 }
  let stepped :=
    match issue.severity with
    | .critical => ({ s1 with criticalIssues := s1.criticalIssues + 1 }, (25 : Int))
    | .high => ({ s1 with highIssues := s1.highIssues + 1 }, 15)
    | .medium => ({ s1 with mediumIssues := s1.mediumIssues + 1 }, 10)
    | .low => ({ s1 with lowIssues := s1.lowIssues + 1 }, 5)
    | .info => (s1, 0)
  { report with
    summary := stepped.1
    categories := updateCategory report.categories category
      (fun c => { issues := c.issues ++ [issue],
                  score := max 0 (c.score - stepped.2) }) }

/-- The score deduction `addIssue` applies for a severity. -/
def deduction : Severity → Int
  | .critical => 25
  | .high => 15
  | .medium => 10
  | .low => 5
  | .info => 0

/-- Initialize `auditReport.categories[category] = \x7b issues: [], score: 100 \x7d`,
the first statement of every category check. -/
def initCategory (report : AuditReport) (category : String) : AuditReport :=
  { report with
    categories := setCategory report.categories category { issues := [], score := 100 } }

/-- Record a computed list of findings into a category by repeated
`addIssue`, in order. -/
def recordIssues (report : AuditReport) (category : String)
    (issues : List Issue) : AuditReport :=
  issues.foldl (fun acc i => addIssue acc category i) report

/-! ## The six category checks

Each check is a `try`-block writing into the report through `addIssue`; a
JavaScript exception inside the block (a `JSON.parse` failure, or a property
access on `null`) is caught and the category keeps the findings recorded
before the throw.  Each check is split here into a pure function computing
the ordered list of findings the block records before returning or throwing,
and a wrapper that initializes the category and records them. -/

/-- Findings of `auditPackageStructure`.  `parse` is `JSON.parse`; `none`
models a thrown `SyntaxError`. -/
def structureIssues (parse : String → Option Json)
    (targetData : RepositoryDataset) (boilerplateData : List FileRecord) :
    List Issue :=
  match targetData.packageFiles.find? (fun f => f.path == "package.json") with
  | none =>
    [{ severity := .critical,
       message := "Missing root package.json file",
       description := "Every monorepo should have a root package.json file",
       file := "package.json" }]
  | some rootPackage =>
    match parse rootPackage.content with
    | none => []
    | some rootPkg =>
      let boilerplatePackage :=
        boilerplateData.find? (fun f => jsIncludes f.path "package.json")
      let bpParseOk : Bool :=
        match boilerplatePackage with
        | none => true
        | some bp => (parse bp.content).isSome
      if !bpParseOk then []
      else if rootPkg.isNull then []
      else
        let i1 :=
          if !(jsTruthy (jget rootPkg "workspaces")) then
            [{ severity := .high,
               message := "Missing workspaces configuration",
               description := "Monorepo should define workspaces in package.json",
               file := "package.json",
               suggestion := some "Add workspaces configuration similar to boilerplate" }]
          else []
        let i2 :=
          if !(jsTruthy (jget rootPkg "packageManager")) then
            [{ severity := .medium,
               message := "Missing packageManager field",
               description := "Should specify package manager version for consistency",
               file := "package.json" }]
          else []
        let i3 :=
          if !(jsTruthy (jget rootPkg "engines")) then
            [{ severity := .medium,
               message := "Missing engines configuration",
               description := "Should specify Node.js and npm/yarn version requirements",
               file := "package.json" }]
          else []
        let hasApps :=
          targetData.packageFiles.any (fun f => strStartsWith f.path "apps/")
        let hasPackages :=
          targetData.packageFiles.any (fun f => strStartsWith f.path "packages/")
        let i4 :=
          if !hasApps && !hasPackages then
            [{ severity := .high,
               message := "Missing standard monorepo structure",
               description := "Should have apps/ or packages/ directories",
               file := "root" }]
          else []
        i1 ++ i2 ++ i3 ++ i4

/-- Embedding of `AuditEngine.auditPackageStructure`. -/
def auditPackageStructure (parse : String → Option Json)
    (targetData : RepositoryDataset) (boilerplateData : List FileRecord)
    (auditReport : AuditReport) : AuditReport :=
  recordIssues (initCategory auditReport CAT_STRUCTURE) CAT_STRUCTURE
    (structureIssues parse targetData boilerplateData)

/-- The `requiredDeps` list of `auditDependencyManagement`. -/
def requiredDeps : List String :=
  ["@dtsl/jest-config", "@dtsl/eslint-config", "@dtsl/prettier-config",
   "@dtsl/typescript-config"]

/-- Findings of `auditDependencyManagement`. -/
def dependencyIssues (parse : String → Option Json)
    (targetData : RepositoryDataset) : List Issue :=
  match targetData.packageFiles.find? (fun f => f.path == "package.json") with
  | none => []
  | some rootPackage =>
    match parse rootPackage.content with
    | none => []
    | some rootPkg =>
      if rootPkg.isNull then []
      else
        let missingDeps := requiredDeps.filter (fun dep =>
          !(jsTruthy (jgetOpt (jget rootPkg "devDependencies") dep)) &&
          !(jsTruthy (jgetOpt (jget rootPkg "dependencies") dep)))
        let missingIssues := missingDeps.map (fun dep =>
          { severity := .medium,
            message := "Missing DTSL common dependency: " ++ dep,
            description := "Should use DTSL common configurations for consistency",
            file := "package.json" : Issue })
        let lodashIssue :=
          if jsTruthy (jgetOpt (jget rootPkg "dependencies") "lodash") ||
             jsTruthy (jgetOpt (jget rootPkg "devDependencies") "lodash") then
            [{ severity := .low,
               message := "Consider using lodash-es instead of lodash",
               description := "lodash-es provides better tree-shaking support",
               file := "package.json" : Issue }]
          else []
        missingIssues ++ lodashIssue

/-- Embedding of `AuditEngine.auditDependencyManagement`. -/
def auditDependencyManagement (parse : String → Option Json)
    (targetData : RepositoryDataset) (auditReport : AuditReport) : AuditReport :=
  recordIssues (initCategory auditReport CAT_DEPENDENCIES) CAT_DEPENDENCIES
    (dependencyIssues parse targetData)

/-- Findings of `auditBuildConfiguration` (pure presence checks on
`configFiles`; nothing in the block can throw). -/
def buildIssues (targetData : RepositoryDataset) : List Issue :=
  let i1 :=
    if (targetData.configFiles.find? (fun f => f.path == "turbo.json")).isNone then
      [{ severity := .high,
         message := "Missing turbo.json configuration",
         description := "Monorepo should use Turborepo for build orchestration",
         file := "turbo.json" : Issue }]
    else []
  let i2 :=
    if (targetData.configFiles.find? (fun f => f.path == "tsconfig.json")).isNone then
      [{ severity := .medium,
         message := "Missing TypeScript configuration",
         description := "Should have TypeScript configuration for better development experience",
         file := "tsconfig.json" : Issue }]
    else []
  let i3 :=
    if (targetData.configFiles.find? (fun f => jsIncludes f.path "babel.config")).isNone then
      [{ severity := .medium,
         message := "Missing Babel configuration",
         description := "Should have Babel configuration for consistent transpilation",
         file := "babel.config.json" : Issue }]
    else []
  i1 ++ i2 ++ i3

/-- Embedding of `AuditEngine.auditBuildConfiguration`. -/
def auditBuildConfiguration (targetData : RepositoryDataset)
    (auditReport : AuditReport) : AuditReport :=
  recordIssues (initCategory auditReport CAT_BUILD) CAT_BUILD
    (buildIssues targetData)

/-- Findings of `auditCodeQualitySetup` (the `commonConfigData` argument of
the source function is never read). -/
def codeQualityIssues (parse : String → Option Json)
    (targetData : RepositoryDataset) : List Issue :=
  let i1 :=
    if (targetData.configFiles.find? (fun f =>
        jsIncludes f.path "eslint.config" || jsIncludes f.path ".eslintrc")).isNone then
      [{ severity := .high,
         message := "Missing ESLint configuration",
         description := "Should have ESLint configuration for code quality",
         file := "eslint.config.js" : Issue }]
    else []
  let i2 :=
    if (targetData.configFiles.find? (fun f =>
        jsIncludes f.path "prettier.config" || jsIncludes f.path ".prettierrc")).isNone then
      [{ severity := .medium,
         message := "Missing Prettier configuration",
         description := "Should have Prettier configuration for consistent formatting",
         file := "prettier.config.js" : Issue }]
    else []
  let base := i1 ++ i2
  match targetData.packageFiles.find? (fun f => f.path == "package.json") with
  | none => base
  | some rootPackage =>
    match parse rootPackage.content with
    | none => base
    | some rootPkg =>
      if rootPkg.isNull then base
      else
        let i3 :=
          if !(jsTruthy (jgetOpt (jget rootPkg "devDependencies") "husky")) then
            [{ severity := .medium,
               message := "Missing Husky for git hooks",
               description := "Should use Husky for pre-commit quality checks",
               file := "package.json" : Issue }]
          else []
        let i4 :=
          if !(jsTruthy (jgetOpt (jget rootPkg "devDependencies") "lint-staged")) then
            [{ severity := .medium,
               message := "Missing lint-staged",
               description := "Should use lint-staged for efficient pre-commit linting",
               file := "package.json" : Issue }]
          else []
        base ++ i3 ++ i4

/-- Embedding of `AuditEngine.auditCodeQualitySetup`. -/
def auditCodeQualitySetup (parse : String → Option Json)
    (targetData : RepositoryDataset) (commonConfigData : List FileRecord)
    (auditReport : AuditReport) : AuditReport :=
  recordIssues (initCategory auditReport CAT_CODE_QUALITY) CAT_CODE_QUALITY
    (codeQualityIssues parse targetData)

/-- Findings of `auditTestingSetup`. -/
def testingIssues (parse : String → Option Json)
    (targetData : RepositoryDataset) : List Issue :=
  let i1 :=
    if (targetData.configFiles.find? (fun f => jsIncludes f.path "jest.config")).isNone then
      [{ severity := .high,
         message := "Missing Jest configuration",
         description := "Should have Jest configuration for testing",
         file := "jest.config.js" : Issue }]
    else []
  match targetData.packageFiles.find? (fun f => f.path == "package.json") with
  | none => i1
  | some rootPackage =>
    match parse rootPackage.content with
    | none => i1
    | some rootPkg =>
      if rootPkg.isNull then i1
      else
        let i2 :=
          if !(jsTruthy (jgetOpt (jget rootPkg "scripts") "test")) then
            [{ severity := .medium,
               message := "Missing test script",
               description := "Should have test script in package.json",
               file := "package.json" : Issue }]
          else []
        let i3 :=
          if !(jsTruthy (jgetOpt (jget rootPkg "scripts") "test:ci")) then
            [{ severity := .low,
               message := "Missing CI test script",
               description := "Should have test:ci script for CI/CD pipelines",
               file := "package.json" : Issue }]
          else []
        i1 ++ i2 ++ i3

/-- Embedding of `AuditEngine.auditTestingSetup`. -/
def auditTestingSetup (parse : String → Option Json)
    (targetData : RepositoryDataset) (auditReport : AuditReport) : AuditReport :=
  recordIssues (initCategory auditReport CAT_TESTING) CAT_TESTING
    (testingIssues parse targetData)

/-- The single unconditional placeholder finding of `auditDocumentation`. -/
def documentationPlaceholder : Issue :=
  { severity := .low,
    message := "Documentation audit not fully implemented",
    description := "README and documentation checks need to be implemented",
    file := "various" }

/-- Findings of `auditDocumentation`: the placeholder, whatever the data. -/
def documentationIssues (targetData : RepositoryDataset) : List Issue :=
  [documentationPlaceholder]

/-- Embedding of `AuditEngine.auditDocumentation`. -/
def auditDocumentation (targetData : RepositoryDataset)
    (auditReport : AuditReport) : AuditReport :=
  recordIssues (initCategory auditReport CAT_DOCUMENTATION) CAT_DOCUMENTATION
    (documentationIssues targetData)

/-! ## Compliance score and the full evaluation pipeline -/

/-- Embedding of `AuditEngine.calculateComplianceScore`:
`Math.round(sum / n)` where `n` is the number of categories.  JavaScript
`Math.round x = ⌊x + 1/2⌋`; for `n > 0` that is the integer
`(2 * sum + n) / (2 * n)` under floor division, which `Int` division is for a
positive divisor.  `n = 0` (a division by zero, `NaN` in JavaScript) is
unreachable — every caller has six categories — and is modelled as 0. -/
def calculateComplianceScore (report : AuditReport) : AuditReport :=
  let categoryScores := report.categories.map (fun p => p.2.score)
  let n := categoryScores.length
  let rounded : Int :=
    if n = 0 then 0 else (2 * categoryScores.sum + n) / (2 * n)
  { report with summary := { report.summary with complianceScore := rounded } }

/-- The fresh report object built at the top of `auditRepository`. -/
def emptyReport (owner repo timestamp : String) : AuditReport :=
  { owner := owner, repo := repo, timestamp := timestamp,
    summary := { totalIssues := 0, criticalIssues := 0, highIssues := 0,
                 mediumIssues := 0, lowIssues := 0, complianceScore := 0 },
    categories := [],
    recommendations := [] }

/-- Embedding of the evaluation phase of `AuditEngine.auditRepository`: the
six category checks in source order on the fetched datasets, then the
compliance score. -/
def runAudit (parse : String → Option Json) (owner repo timestamp : String)
    (targetData : RepositoryDataset) (boilerplateData commonConfigData : List FileRecord) :
    AuditReport :=
  let r0 := emptyReport owner repo timestamp
  let r1 := auditPackageStructure parse targetData boilerplateData r0
  let r2 := auditDependencyManagement parse targetData r1
  let r3 := auditBuildConfiguration targetData r2
  let r4 := auditCodeQualitySetup parse targetData commonConfigData r3
  let r5 := auditTestingSetup parse targetData r4
  let r6 := auditDocumentation targetData r5
  calculateComplianceScore r6

/-! ## The pattern matcher of `GitHubMCPClient.matchesPattern`

The source builds `new RegExp(pattern.replace('*', '.*'))` — JavaScript
`String.replace` with a string argument replaces only the FIRST `*` — and
runs the unanchored `regex.test(filename)`.  The regex fragment this can
produce from the repository's patterns consists of literal characters, `.`
(any single character) and `*` (zero or more repetitions of the preceding
element).  Characters with another meaning in a regex are out of the modelled
fragment and compile to `none`, as does a `*` with nothing to repeat (a
JavaScript `SyntaxError`). -/

/-- One regex atom: a literal character or the any-character dot. -/
inductive RAtom where
  | lit (c : Char)
  | dot
deriving DecidableEq, Repr

/-- One regex element: an atom, possibly starred. -/
structure RItem where
  atom : RAtom
  starred : Bool
deriving DecidableEq, Repr

/-- Characters the modelled regex fragment treats as literals. -/
def literalRegexChar (c : Char) : Bool :=
  c.isAlphanum || c == '-' || c == '_' || c == '@' || c == '/' || c == ':' || c == ' '

/-- Replace the first `*` of the pattern by `.*`, the effect of
`pattern.replace('*', '.*')`. -/
def replaceFirstStar : List Char → List Char
  | [] => []
  | c :: rest =>
    if c == '*' then '.' :: '*' :: rest else c :: replaceFirstStar rest

/-- Parse a regex string of the modelled fragment (accumulator reversed);
`none` is a `SyntaxError` from `new RegExp`, or a character outside the
fragment. -/
def compileRegexAux : List Char → List RItem → Option (List RItem)
  | [], acc => some acc.reverse
  | c :: rest, acc =>
    if c == '*' then
      match acc with
      | [] => none
      | a :: as_ =>
        if a.starred then none
        else compileRegexAux rest ({ a with starred := true } :: as_)
    else if c == '.' then compileRegexAux rest (⟨.dot, false⟩ :: acc)
    else if literalRegexChar c then compileRegexAux rest (⟨.lit c, false⟩ :: acc)
    else none

/-- The regex `matchesPattern` builds from one pattern. -/
def compilePattern (p : String) : Option (List RItem) :=
  compileRegexAux (replaceFirstStar p.toList) []

/-- Does an atom match a character. -/
def matchAtom : RAtom → Char → Bool
  | .lit c, ch => c == ch
  | .dot, _ => true

/-- Does the regex match some prefix of the character list (backtracking
over the two choices of a starred element)?  Structured over an explicit
fuel so that the kernel can evaluate it; every step consumes a regex element
or a character, so `rs.length + cs.length + 1` fuel always suffices (see
`matchHere_iff`). -/
def matchHereFuel : Nat → List RItem → List Char → Bool
  | 0, _, _ => false
  | Nat.succ n, rs, cs =>
    match rs with
    | [] => true
    | i :: rs2 =>
      if i.starred then
        matchHereFuel n rs2 cs ||
          (match cs with
           | [] => false
           | c :: cs2 => matchAtom i.atom c && matchHereFuel n (i :: rs2) cs2)
      else
        match cs with
        | [] => false
        | c :: cs2 => matchAtom i.atom c && matchHereFuel n rs2 cs2

/-- Does the regex match some prefix of the character list. -/
def matchHere (rs : List RItem) (cs : List Char) : Bool :=
  matchHereFuel (rs.length + cs.length + 1) rs cs

/-- Embedding of the unanchored `regex.test(s)`: the regex matches starting
at some position of `s`. -/
def regexTest (r : List RItem) (s : String) : Bool :=
  s.toList.tails.any (fun t => matchHere r t)

/-- Embedding of `GitHubMCPClient.matchesPattern`.  `patterns.some(cb)` runs
the callback left to right; `some b` is a normal return, `none` a `RegExp`
construction error thrown out of the callback. -/
def matchesPattern (filename : String) : List String → Option Bool
  | [] => some false
  | p :: ps =>
    match compilePattern p with
    | none => none
    | some r => if regexTest r filename then some true else matchesPattern filename ps

/-- Modelled from the spec: the claim's matching semantics, under which every
`*` of the pattern is a match-any-substring wildcard and every other
character is matched literally, as one regex: `*` becomes a starred
any-character element, anything else a literal. -/
def claimCompiledPattern (p : String) : List RItem :=
  p.toList.map (fun c => if c == '*' then ⟨.dot, true⟩ else ⟨.lit c, false⟩)

/-- Modelled from the spec: the claim's pattern predicate — some pattern of
the list, read with `*` as a substring wildcard and every other character
literal, matches the filename as an unanchored membership test. -/
def claimMatchesPattern (filename : String) (patterns : List String) : Bool :=
  patterns.any (fun p => regexTest (claimCompiledPattern p) filename)

/-! ## The GitHub client (`github-mcp-client.js`) -/

/-- The error classes a GitHub call can raise. -/
inductive GhError where
  | notFound
  | transient
  | other
deriving DecidableEq, Repr

/-- One item of a GitHub contents response: a directory entry, or the
single-file answer with its (base64-decoded) content. -/
structure RemoteItem where
  name : String
  path : String
  type : String
  size : Nat
  content : String
  sha : String
deriving DecidableEq, Repr

/-- A successful `octokit.rest.repos.getContent` answer: a single file
object, or the array listing a directory. -/
inductive ContentResp where
  | one (item : RemoteItem)
  | many (items : List RemoteItem)
deriving DecidableEq, Repr

/-- The remote service for one repository and ref: what `getContent`
answers, or raises, at each path. -/
structure GhEnv where
  getContent : String → Except GhError ContentResp

/-- The `chunking.maxFileSize` of `MCP_CONFIG`. -/
def maxFileSize : Nat := 50000

/-- Embedding of `GitHubMCPClient.getRepositoryStructure`: wrap a single
file answer in a singleton array; EVERY raised error — `NotFoundError` or
not — is caught, logged and turned into the empty listing. -/
def getRepositoryStructure (env : GhEnv) (path : String) : List RemoteItem :=
  match env.getContent path with
  | .ok (.many items) => items
  | .ok (.one item) => [item]
  | .error _ => []

/-- Embedding of `GitHubMCPClient.getFileContent`: a raised error of any
kind is caught and yields `null`; an oversized file yields `null`; a
directory answer has no `size`/`content` fields, so decoding throws and the
catch yields `null` as well. -/
def getFileContent (env : GhEnv) (path : String) : Option FileRecord :=
  match env.getContent path with
  | .error _ => none
  | .ok (.many _) => none
  | .ok (.one d) =>
    if d.size > maxFileSize then none
    else some { path := d.path, content := d.content, size := d.size, sha := d.sha }

/-- Embedding of `GitHubMCPClient.getPackageJsonFiles`: the root manifest if
fetchable, then the manifest of every subdirectory of `apps/`, then of
`packages/`; `null` fetches are skipped. -/
def getPackageJsonFiles (env : GhEnv) : List FileRecord :=
  let packageFiles :=
    match getFileContent env "package.json" with
    | some r => [r]
    | none => []
  let appsStructure := getRepositoryStructure env "apps"
  let packagesStructure := getRepositoryStructure env "packages"
  let fromApps := appsStructure.filterMap (fun item =>
    if item.type == "dir" then getFileContent env (item.path ++ "/package.json")
    else none)
  let fromPackages := packagesStructure.filterMap (fun item =>
    if item.type == "dir" then getFileContent env (item.path ++ "/package.json")
    else none)
  packageFiles ++ fromApps ++ fromPackages

/-- The `configPatterns` list of `getConfigFiles`. -/
def configPatterns : List String :=
  ["babel.config.*", "jest.config.*", "webpack.config.*", "tsconfig.json",
   "jsconfig.json", "eslint.config.*", "prettier.config.*", "turbo.json"]

/-- The loop of `getConfigFiles` over the root listing.  The second
component records whether `matchesPattern` threw (a `RegExp` error), which
the enclosing catch turns into returning the files accumulated so far and
skipping the `config/` phase. -/
def getConfigFilesLoop (env : GhEnv) :
    List RemoteItem → List FileRecord → List FileRecord × Bool
  | [], acc => (acc, false)
  | item :: rest, acc =>
    if item.type == "file" then
      match matchesPattern item.name configPatterns with
      | none => (acc, true)
      | some true =>
        match getFileContent env item.path with
        | some fc => getConfigFilesLoop env rest (acc ++ [fc])
        | none => getConfigFilesLoop env rest acc
      | some false => getConfigFilesLoop env rest acc
    else getConfigFilesLoop env rest acc

/-- Embedding of `GitHubMCPClient.getConfigFiles`: root files matching
`configPatterns`, then every file of the `config/` directory. -/
def getConfigFiles (env : GhEnv) : List FileRecord :=
  let rootPhase := getConfigFilesLoop env (getRepositoryStructure env "") []
  if rootPhase.2 then rootPhase.1
  else
    let configDir := getRepositoryStructure env "config"
    rootPhase.1 ++ configDir.filterMap (fun item =>
      if item.type == "file" then getFileContent env item.path else none)

/-- Embedding of `GitHubMCPClient.getCommonConfig`, run against the
common-config repository's environment.  The filter transcribes
`item.type === 'file' && item.name.endsWith('.json') || item.name.endsWith('.js')`
with JavaScript precedence: `(type file AND .json) OR .js`. -/
def getCommonConfig (env : GhEnv) : List FileRecord :=
  let configStructure := getRepositoryStructure env ""
  configStructure.filterMap (fun item =>
    if (item.type == "file" && strEndsWith item.name ".json")
        || strEndsWith item.name ".js" then
      getFileContent env item.path
    else none)

/-- Embedding of `GitHubMCPClient.getRepositoryDataChunked`.  The body only
combines the two already-caught phases and the rate-limit delays, so the
`try`/`catch`-rethrow around it has no remaining throw path and the result
is always `ok`; the `Except` return type records where a rethrow would
surface. -/
def getRepositoryDataChunked (env : GhEnv) (owner repo fetchedAt : String) :
    Except GhError RepositoryDataset :=
  let packageFiles := getPackageJsonFiles env
  let configFiles := getConfigFiles env
  .ok { packageFiles := packageFiles,
        configFiles := configFiles,
        metadata := { owner := owner, repo := repo, fetchedAt := fetchedAt,
                      totalFiles := packageFiles.length + configFiles.length } }


/-! ## Infrastructure lemmas: the categories association list -/

theorem getCategory_updateCategory_self (m : List (String × CategoryResult))
    (k : String) (f : CategoryResult → CategoryResult) :
    getCategory (updateCategory m k f) k = (getCategory m k).map f := by
  unfold getCategory updateCategory
  rw [List.find?_map]
  have hcomp : ((fun p : String × CategoryResult => p.1 == k) ∘
      (fun p : String × CategoryResult => if p.1 == k then (p.1, f p.2) else p)) =
      (fun p : String × CategoryResult => p.1 == k) := by
    funext q
    by_cases hq : q.1 = k <;> simp [hq]
  rw [hcomp]
  cases hf : m.find? (fun p => p.1 == k) with
  | none => rfl
  | some q =>
    have hq := List.find?_some hf
    simp only [beq_iff_eq] at hq
    simp [hq]

theorem getCategory_updateCategory_ne (m : List (String × CategoryResult))
    (k k2 : String) (f : CategoryResult → CategoryResult) (h : k2 ≠ k) :
    getCategory (updateCategory m k f) k2 = getCategory m k2 := by
  unfold getCategory updateCategory
  rw [List.find?_map]
  have hcomp : ((fun p : String × CategoryResult => p.1 == k2) ∘
      (fun p : String × CategoryResult => if p.1 == k then (p.1, f p.2) else p)) =
      (fun p : String × CategoryResult => p.1 == k2) := by
    funext q
    by_cases hq : q.1 = k <;> simp [hq]
  rw [hcomp]
  cases hf : m.find? (fun p => p.1 == k2) with
  | none => rfl
  | some q =>
    have hq := List.find?_some hf
    simp only [beq_iff_eq] at hq
    simp [hq, h]

theorem getCategory_setCategory_self (m : List (String × CategoryResult))
    (k : String) (v : CategoryResult) :
    getCategory (setCategory m k v) k = some v := by
  unfold getCategory setCategory
  split
  · rename_i h
    rw [List.find?_map]
    have hcomp : ((fun p : String × CategoryResult => p.1 == k) ∘
        (fun p : String × CategoryResult => if p.1 == k then (k, v) else p)) =
        (fun p : String × CategoryResult => p.1 == k) := by
      funext q
      by_cases hq : q.1 = k <;> simp [hq]
    rw [hcomp]
    have hex : (m.find? (fun p => p.1 == k)).isSome := by
      rw [List.find?_isSome]
      rcases (List.any_eq_true).mp h with ⟨x, hx, hpx⟩
      exact ⟨x, hx, hpx⟩
    rcases Option.isSome_iff_exists.mp hex with ⟨q, hf⟩
    have hq := List.find?_some hf
    simp only [beq_iff_eq] at hq
    simp [hf, hq]
  · rename_i h
    rw [Bool.not_eq_true] at h
    have hnone : m.find? (fun p => p.1 == k) = none := by
      rw [List.find?_eq_none]
      intro x hx
      have := (List.any_eq_false).mp h x hx
      simpa using this
    simp [List.find?_append, hnone, List.find?]

theorem getCategory_setCategory_ne (m : List (String × CategoryResult))
    (k k2 : String) (v : CategoryResult) (h : k2 ≠ k) :
    getCategory (setCategory m k v) k2 = getCategory m k2 := by
  unfold getCategory setCategory
  split
  · rw [List.find?_map]
    have hcomp : ((fun p : String × CategoryResult => p.1 == k2) ∘
        (fun p : String × CategoryResult => if p.1 == k then (k, v) else p)) =
        (fun p : String × CategoryResult => p.1 == k2) := by
      funext q
      by_cases hq : q.1 = k <;> simp [hq, Ne.symm h]
    rw [hcomp]
    cases hf : m.find? (fun p => p.1 == k2) with
    | none => rfl
    | some q =>
      have hq := List.find?_some hf
      simp only [beq_iff_eq] at hq
      simp [hq, h]
  · have hb : (k == k2) = false := by simp [Ne.symm h]
    have hlast : (([(k, v)] : List (String × CategoryResult)).find?
        (fun p => p.1 == k2)) = none := by
      simp [List.find?, hb]
    cases hf : m.find? (fun p => p.1 == k2) with
    | none => simp [List.find?_append, hf, hlast]
    | some q => simp [List.find?_append, hf, hlast]

theorem keys_updateCategory (m : List (String × CategoryResult)) (k : String)
    (f : CategoryResult → CategoryResult) :
    (updateCategory m k f).map Prod.fst = m.map Prod.fst := by
  unfold updateCategory
  rw [List.map_map]
  congr 1
  funext q
  by_cases hq : q.1 = k <;> simp [hq]

theorem keys_setCategory_fresh (m : List (String × CategoryResult)) (k : String)
    (v : CategoryResult) (h : m.any (fun p => p.1 == k) = false) :
    (setCategory m k v).map Prod.fst = m.map Prod.fst ++ [k] := by
  unfold setCategory
  simp [h]

/-! ## The effect of addIssue on one category -/

/-- What one `addIssue` call does to the touched category's result. -/
def catStep (cr : CategoryResult) (i : Issue) : CategoryResult :=
  { issues := cr.issues ++ [i], score := max 0 (cr.score - deduction i.severity) }

/-- The touched category's result after a sequence of `addIssue` calls. -/
def catFold (cr : CategoryResult) (issues : List Issue) : CategoryResult :=
  issues.foldl catStep cr

/-- The sum of the score deductions of a list of findings. -/
def penaltySum (issues : List Issue) : Int :=
  (issues.map (fun i => deduction i.severity)).sum

theorem addIssue_categories (r : AuditReport) (c : String) (i : Issue) :
    (addIssue r c i).categories =
      updateCategory r.categories c (fun cr => catStep cr i) := by
  rcases i with ⟨sev, msg, desc, fl, sug⟩
  cases sev <;> rfl

theorem addIssue_summary (r : AuditReport) (c : String) (i : Issue) :
    (addIssue r c i).summary =
      { totalIssues := r.summary.totalIssues + 1,
        criticalIssues := r.summary.criticalIssues +
          (if i.severity = .critical then 1 else 0),
        highIssues := r.summary.highIssues + (if i.severity = .high then 1 else 0),
        mediumIssues := r.summary.mediumIssues + (if i.severity = .medium then 1 else 0),
        lowIssues := r.summary.lowIssues + (if i.severity = .low then 1 else 0),
        complianceScore := r.summary.complianceScore } := by
  rcases i with ⟨sev, msg, desc, fl, sug⟩
  cases sev <;> simp [addIssue]

theorem addIssue_owner (r : AuditReport) (c : String) (i : Issue) :
    (addIssue r c i).owner = r.owner := by
  rcases i with ⟨sev, msg, desc, fl, sug⟩
  cases sev <;> rfl

theorem addIssue_keys (r : AuditReport) (c : String) (i : Issue) :
    (addIssue r c i).categories.map Prod.fst = r.categories.map Prod.fst := by
  rw [addIssue_categories, keys_updateCategory]

theorem deduction_nonneg (s : Severity) : 0 ≤ deduction s := by
  cases s <;> simp [deduction]

theorem penaltySum_nil : penaltySum [] = 0 := rfl

theorem penaltySum_cons (i : Issue) (is : List Issue) :
    penaltySum (i :: is) = deduction i.severity + penaltySum is := by
  simp [penaltySum]

theorem penaltySum_nonneg (issues : List Issue) : 0 ≤ penaltySum issues := by
  induction issues with
  | nil => simp [penaltySum]
  | cons i is ih =>
    rw [penaltySum_cons]
    have := deduction_nonneg i.severity
    omega

theorem penaltySum_append (is1 is2 : List Issue) :
    penaltySum (is1 ++ is2) = penaltySum is1 + penaltySum is2 := by
  simp [penaltySum]

theorem catFold_spec (issues : List Issue) :
    ∀ (is0 : List Issue) (s0 : Int), 0 ≤ s0 →
      catFold ⟨is0, s0⟩ issues = ⟨is0 ++ issues, max 0 (s0 - penaltySum issues)⟩ := by
  induction issues with
  | nil =>
    intro is0 s0 h
    simp only [catFold, List.foldl_nil, penaltySum_nil]
    congr 1
    · simp
    · omega
  | cons i is ih =>
    intro is0 s0 h
    have step : catFold ⟨is0, s0⟩ (i :: is) = catFold (catStep ⟨is0, s0⟩ i) is := rfl
    rw [step]
    show catFold ⟨is0 ++ [i], max 0 (s0 - deduction i.severity)⟩ is = _
    rw [ih (is0 ++ [i]) _ (le_max_left 0 _)]
    have hd := deduction_nonneg i.severity
    have hps := penaltySum_nonneg is
    congr 1
    · simp
    · rw [penaltySum_cons]
      omega

/-! ## recordIssues and the category checks -/

theorem recordIssues_getCategory_self (c : String) (issues : List Issue) :
    ∀ r : AuditReport,
      getCategory (recordIssues r c issues).categories c =
        (getCategory r.categories c).map (fun cr => catFold cr issues) := by
  induction issues with
  | nil =>
    intro r
    cases h : getCategory r.categories c <;> simp [recordIssues, catFold, h]
  | cons i is ih =>
    intro r
    have step : recordIssues r c (i :: is) = recordIssues (addIssue r c i) c is := rfl
    rw [step, ih, addIssue_categories, getCategory_updateCategory_self]
    cases h : getCategory r.categories c <;> simp [catFold]

theorem recordIssues_getCategory_ne (c c2 : String) (h : c2 ≠ c) (issues : List Issue) :
    ∀ r : AuditReport,
      getCategory (recordIssues r c issues).categories c2 =
        getCategory r.categories c2 := by
  induction issues with
  | nil => intro r; rfl
  | cons i is ih =>
    intro r
    have step : recordIssues r c (i :: is) = recordIssues (addIssue r c i) c is := rfl
    rw [step, ih, addIssue_categories, getCategory_updateCategory_ne _ _ _ _ h]

theorem recordIssues_keys (c : String) (issues : List Issue) :
    ∀ r : AuditReport,
      (recordIssues r c issues).categories.map Prod.fst =
        r.categories.map Prod.fst := by
  induction issues with
  | nil => intro r; rfl
  | cons i is ih =>
    intro r
    have step : recordIssues r c (i :: is) = recordIssues (addIssue r c i) c is := rfl
    rw [step, ih, addIssue_keys]

theorem initCategory_getCategory_self (r : AuditReport) (c : String) :
    getCategory (initCategory r c).categories c = some { issues := [], score := 100 } := by
  unfold initCategory
  exact getCategory_setCategory_self r.categories c _

theorem initCategory_getCategory_ne (r : AuditReport) (c c2 : String) (h : c2 ≠ c) :
    getCategory (initCategory r c).categories c2 = getCategory r.categories c2 := by
  unfold initCategory
  exact getCategory_setCategory_ne r.categories c c2 _ h

/-- The result a category check leaves in its own category: the computed
issue list, scored by the clamped deductions. -/
theorem check_result (r : AuditReport) (c : String) (issues : List Issue) :
    getCategory ((recordIssues (initCategory r c) c issues).categories) c =
      some { issues := issues, score := max 0 (100 - penaltySum issues) } := by
  rw [recordIssues_getCategory_self, initCategory_getCategory_self]
  show some (catFold { issues := [], score := 100 } issues) = _
  rw [catFold_spec issues [] 100 (by omega)]
  simp

/-- A category check does not touch any other category. -/
theorem check_preserve (r : AuditReport) (c : String) (issues : List Issue)
    (c2 : String) (h : c2 ≠ c) :
    getCategory ((recordIssues (initCategory r c) c issues).categories) c2 =
      getCategory r.categories c2 := by
  rw [recordIssues_getCategory_ne c c2 h, initCategory_getCategory_ne r c c2 h]

/-- A category check appends its own key when fresh. -/
theorem check_keys (r : AuditReport) (c : String) (issues : List Issue)
    (h : r.categories.any (fun p => p.1 == c) = false) :
    ((recordIssues (initCategory r c) c issues).categories).map Prod.fst =
      r.categories.map Prod.fst ++ [c] := by
  rw [recordIssues_keys]
  unfold initCategory
  exact keys_setCategory_fresh r.categories c _ h

/-! ## Walking runAudit -/

theorem calculateComplianceScore_categories (r : AuditReport) :
    (calculateComplianceScore r).categories = r.categories := rfl

theorem runAudit_def (parse : String → Option Json) (owner repo timestamp : String)
    (targetData : RepositoryDataset) (boilerplateData commonConfigData : List FileRecord) :
    runAudit parse owner repo timestamp targetData boilerplateData commonConfigData =
      calculateComplianceScore
        (auditDocumentation targetData
          (auditTestingSetup parse targetData
            (auditCodeQualitySetup parse targetData commonConfigData
              (auditBuildConfiguration targetData
                (auditDependencyManagement parse targetData
                  (auditPackageStructure parse targetData boilerplateData
                    (emptyReport owner repo timestamp))))))) := rfl

theorem auditPackageStructure_eq (parse : String → Option Json)
    (targetData : RepositoryDataset) (boilerplateData : List FileRecord)
    (r : AuditReport) :
    auditPackageStructure parse targetData boilerplateData r =
      recordIssues (initCategory r CAT_STRUCTURE) CAT_STRUCTURE
        (structureIssues parse targetData boilerplateData) := rfl

theorem auditDependencyManagement_eq (parse : String → Option Json)
    (targetData : RepositoryDataset) (r : AuditReport) :
    auditDependencyManagement parse targetData r =
      recordIssues (initCategory r CAT_DEPENDENCIES) CAT_DEPENDENCIES
        (dependencyIssues parse targetData) := rfl

theorem auditBuildConfiguration_eq (targetData : RepositoryDataset)
    (r : AuditReport) :
    auditBuildConfiguration targetData r =
      recordIssues (initCategory r CAT_BUILD) CAT_BUILD
        (buildIssues targetData) := rfl

theorem auditCodeQualitySetup_eq (parse : String → Option Json)
    (targetData : RepositoryDataset) (commonConfigData : List FileRecord)
    (r : AuditReport) :
    auditCodeQualitySetup parse targetData commonConfigData r =
      recordIssues (initCategory r CAT_CODE_QUALITY) CAT_CODE_QUALITY
        (codeQualityIssues parse targetData) := rfl

theorem auditTestingSetup_eq (parse : String → Option Json)
    (targetData : RepositoryDataset) (r : AuditReport) :
    auditTestingSetup parse targetData r =
      recordIssues (initCategory r CAT_TESTING) CAT_TESTING
        (testingIssues parse targetData) := rfl

theorem auditDocumentation_eq (targetData : RepositoryDataset) (r : AuditReport) :
    auditDocumentation targetData r =
      recordIssues (initCategory r CAT_DOCUMENTATION) CAT_DOCUMENTATION
        (documentationIssues targetData) := rfl

theorem any_key (m : List (String × CategoryResult)) (c : String) :
    m.any (fun p => p.1 == c) = (m.map Prod.fst).any (fun s => s == c) := by
  induction m with
  | nil => rfl
  | cons p t ih => simp [List.any_cons, ih]

/-- C1 helper: the names of the six categories in evaluation order. -/
def categoryNames : List String :=
  [CAT_STRUCTURE, CAT_DEPENDENCIES, CAT_BUILD, CAT_CODE_QUALITY, CAT_TESTING,
   CAT_DOCUMENTATION]

theorem check_keys_cons (r : AuditReport) (c : String) (issues : List Issue)
    (ks : List String) (hk : r.categories.map Prod.fst = ks)
    (h : ks.any (fun s => s == c) = false) :
    ((recordIssues (initCategory r c) c issues).categories).map Prod.fst = ks ++ [c] := by
  rw [check_keys _ _ _ (by rw [any_key, hk]; exact h), hk]

theorem runAudit_keys (parse : String → Option Json) (owner repo timestamp : String)
    (targetData : RepositoryDataset) (boilerplateData commonConfigData : List FileRecord) :
    ((runAudit parse owner repo timestamp targetData boilerplateData
        commonConfigData).categories).map Prod.fst = categoryNames := by
  rw [runAudit_def, calculateComplianceScore_categories, auditDocumentation_eq,
    auditTestingSetup_eq, auditCodeQualitySetup_eq, auditBuildConfiguration_eq,
    auditDependencyManagement_eq, auditPackageStructure_eq]
  have k1 := check_keys_cons (emptyReport owner repo timestamp) CAT_STRUCTURE
    (structureIssues parse targetData boilerplateData) [] rfl (by decide)
  have k2 := check_keys_cons _ CAT_DEPENDENCIES (dependencyIssues parse targetData)
    _ k1 (by decide)
  have k3 := check_keys_cons _ CAT_BUILD (buildIssues targetData) _ k2 (by decide)
  have k4 := check_keys_cons _ CAT_CODE_QUALITY (codeQualityIssues parse targetData)
    _ k3 (by decide)
  have k5 := check_keys_cons _ CAT_TESTING (testingIssues parse targetData) _ k4 (by decide)
  have k6 := check_keys_cons _ CAT_DOCUMENTATION (documentationIssues targetData)
    _ k5 (by decide)
  simpa [categoryNames] using k6

/-- C1.  For every base report, category and sequence of findings recorded
into a freshly initialized category (as every check does), the final category
result holds exactly those findings with score `max 0 (100 - Σ deduction)`,
where `deduction` is critical 25, high 15, medium 10, low 5 (and 0 for
`info`, which `addIssue` does not penalize); the score is an integer between
0 and 100, and adding one more finding never increases it. -/
theorem category_score_spec (r : AuditReport) (c : String) (issues : List Issue) :
    getCategory ((recordIssues (initCategory r c) c issues).categories) c =
      some { issues := issues, score := max 0 (100 - penaltySum issues) } ∧
    (0 : Int) ≤ max 0 (100 - penaltySum issues) ∧
    max 0 (100 - penaltySum issues) ≤ 100 ∧
    ∀ i : Issue,
      max 0 (100 - penaltySum (issues ++ [i])) ≤ max 0 (100 - penaltySum issues) := by
  refine ⟨check_result r c issues, le_max_left 0 _, ?_, ?_⟩
  · have := penaltySum_nonneg issues
    omega
  · intro i
    rw [penaltySum_append, penaltySum_cons, penaltySum_nil]
    have := deduction_nonneg i.severity
    omega

/-- C9.  Whatever the input dataset (and the parse function and reference
data), the Documentation category of the report always holds exactly the one
low-severity placeholder finding, and its score is always 95. -/
theorem documentation_stub_spec (parse : String → Option Json)
    (owner repo timestamp : String) (targetData : RepositoryDataset)
    (boilerplateData commonConfigData : List FileRecord) :
    getCategory ((runAudit parse owner repo timestamp targetData boilerplateData
        commonConfigData).categories) CAT_DOCUMENTATION =
      some { issues := [documentationPlaceholder], score := 95 } ∧
    documentationPlaceholder.severity = Severity.low := by
  constructor
  · rw [runAudit_def, calculateComplianceScore_categories, auditDocumentation_eq,
      check_result]
    norm_num [documentationIssues, penaltySum, deduction, documentationPlaceholder]
  · rfl

/-! ## The final value of each category -/

theorem runAudit_structure (parse : String → Option Json)
    (owner repo timestamp : String) (targetData : RepositoryDataset)
    (boilerplateData commonConfigData : List FileRecord) :
    getCategory ((runAudit parse owner repo timestamp targetData boilerplateData
        commonConfigData).categories) CAT_STRUCTURE =
      some { issues := structureIssues parse targetData boilerplateData,
             score := max 0 (100 -
               penaltySum (structureIssues parse targetData boilerplateData)) } := by
  rw [runAudit_def, calculateComplianceScore_categories, auditDocumentation_eq,
    auditTestingSetup_eq, auditCodeQualitySetup_eq, auditBuildConfiguration_eq,
    auditDependencyManagement_eq, auditPackageStructure_eq]
  rw [check_preserve _ _ _ _ (by decide), check_preserve _ _ _ _ (by decide),
    check_preserve _ _ _ _ (by decide), check_preserve _ _ _ _ (by decide),
    check_preserve _ _ _ _ (by decide)]
  exact check_result _ _ _

theorem runAudit_dependencies (parse : String → Option Json)
    (owner repo timestamp : String) (targetData : RepositoryDataset)
    (boilerplateData commonConfigData : List FileRecord) :
    getCategory ((runAudit parse owner repo timestamp targetData boilerplateData
        commonConfigData).categories) CAT_DEPENDENCIES =
      some { issues := dependencyIssues parse targetData,
             score := max 0 (100 - penaltySum (dependencyIssues parse targetData)) } := by
  rw [runAudit_def, calculateComplianceScore_categories, auditDocumentation_eq,
    auditTestingSetup_eq, auditCodeQualitySetup_eq, auditBuildConfiguration_eq,
    auditDependencyManagement_eq]
  rw [check_preserve _ _ _ _ (by decide), check_preserve _ _ _ _ (by decide),
    check_preserve _ _ _ _ (by decide), check_preserve _ _ _ _ (by decide)]
  exact check_result _ _ _

theorem runAudit_build (parse : String → Option Json)
    (owner repo timestamp : String) (targetData : RepositoryDataset)
    (boilerplateData commonConfigData : List FileRecord) :
    getCategory ((runAudit parse owner repo timestamp targetData boilerplateData
        commonConfigData).categories) CAT_BUILD =
      some { issues := buildIssues targetData,
             score := max 0 (100 - penaltySum (buildIssues targetData)) } := by
  rw [runAudit_def, calculateComplianceScore_categories, auditDocumentation_eq,
    auditTestingSetup_eq, auditCodeQualitySetup_eq, auditBuildConfiguration_eq]
  rw [check_preserve _ _ _ _ (by decide), check_preserve _ _ _ _ (by decide),
    check_preserve _ _ _ _ (by decide)]
  exact check_result _ _ _

theorem runAudit_codeQuality (parse : String → Option Json)
    (owner repo timestamp : String) (targetData : RepositoryDataset)
    (boilerplateData commonConfigData : List FileRecord) :
    getCategory ((runAudit parse owner repo timestamp targetData boilerplateData
        commonConfigData).categories) CAT_CODE_QUALITY =
      some { issues := codeQualityIssues parse targetData,
             score := max 0 (100 - penaltySum (codeQualityIssues parse targetData)) } := by
  rw [runAudit_def, calculateComplianceScore_categories, auditDocumentation_eq,
    auditTestingSetup_eq, auditCodeQualitySetup_eq]
  rw [check_preserve _ _ _ _ (by decide), check_preserve _ _ _ _ (by decide)]
  exact check_result _ _ _

theorem runAudit_testing (parse : String → Option Json)
    (owner repo timestamp : String) (targetData : RepositoryDataset)
    (boilerplateData commonConfigData : List FileRecord) :
    getCategory ((runAudit parse owner repo timestamp targetData boilerplateData
        commonConfigData).categories) CAT_TESTING =
      some { issues := testingIssues parse targetData,
             score := max 0 (100 - penaltySum (testingIssues parse targetData)) } := by
  rw [runAudit_def, calculateComplianceScore_categories, auditDocumentation_eq,
    auditTestingSetup_eq]
  rw [check_preserve _ _ _ _ (by decide)]
  exact check_result _ _ _

/-- C3.  When no record of `packageFiles` has path exactly `package.json`,
the Structure category of the report holds exactly the one critical
missing-root-manifest finding (score 75), and the other five categories are
still present in the report. -/
theorem structure_missing_root (parse : String → Option Json)
    (owner repo timestamp : String) (targetData : RepositoryDataset)
    (boilerplateData commonConfigData : List FileRecord)
    (h : ∀ f ∈ targetData.packageFiles, f.path ≠ "package.json") :
    getCategory ((runAudit parse owner repo timestamp targetData boilerplateData
        commonConfigData).categories) CAT_STRUCTURE =
      some { issues := [{ severity := .critical,
                          message := "Missing root package.json file",
                          description := "Every monorepo should have a root package.json file",
                          file := "package.json" }],
             score := 75 } ∧
    (getCategory ((runAudit parse owner repo timestamp targetData boilerplateData
        commonConfigData).categories) CAT_DEPENDENCIES).isSome = true ∧
    (getCategory ((runAudit parse owner repo timestamp targetData boilerplateData
        commonConfigData).categories) CAT_BUILD).isSome = true ∧
    (getCategory ((runAudit parse owner repo timestamp targetData boilerplateData
        commonConfigData).categories) CAT_CODE_QUALITY).isSome = true ∧
    (getCategory ((runAudit parse owner repo timestamp targetData boilerplateData
        commonConfigData).categories) CAT_TESTING).isSome = true ∧
    (getCategory ((runAudit parse owner repo timestamp targetData boilerplateData
        commonConfigData).categories) CAT_DOCUMENTATION).isSome = true := by
  have hfind : targetData.packageFiles.find? (fun f => f.path == "package.json") = none := by
    rw [List.find?_eq_none]
    intro f hf
    simpa using h f hf
  have hsi : structureIssues parse targetData boilerplateData =
      [{ severity := .critical,
         message := "Missing root package.json file",
         description := "Every monorepo should have a root package.json file",
         file := "package.json" }] := by
    unfold structureIssues
    rw [hfind]
  refine ⟨?_, ?_, ?_, ?_, ?_, ?_⟩
  · rw [runAudit_structure, hsi]
    decide
  · rw [runAudit_dependencies]
    rfl
  · rw [runAudit_build]
    rfl
  · rw [runAudit_codeQuality]
    rfl
  · rw [runAudit_testing]
    rfl
  · rw [(documentation_stub_spec parse owner repo timestamp targetData
      boilerplateData commonConfigData).1]
    rfl

/-! ## The compliance score -/

theorem jsRound_div (s : Int) (n : Nat) (hn : n ≠ 0) :
    (2 * s + (n : Int)) / (2 * (n : Int)) = round ((s : ℚ) / (n : ℚ)) := by
  have hn0 : ((n : ℚ)) ≠ 0 := by exact_mod_cast hn
  have key : ((s : ℚ) / (n : ℚ) + 1 / 2) =
      (((2 * s + (n : Int)) : Int) : ℚ) / ((2 * n : Nat) : ℚ) := by
    push_cast
    field_simp
    ring
  rw [round_eq, key, Rat.floor_intCast_div_natCast]
  congr 1

theorem calc_compliance (r : AuditReport) (h : r.categories.length ≠ 0) :
    (calculateComplianceScore r).summary.complianceScore =
      round (((((r.categories.map (fun q => q.2.score)).sum : ℤ)) : ℚ) /
        (r.categories.length : ℚ)) := by
  have hlen : (r.categories.map (fun q => q.2.score)).length = r.categories.length :=
    List.length_map _ _
  simp only [calculateComplianceScore, hlen]
  rw [if_neg h]
  exact jsRound_div _ _ h

/-- C2.  The reported compliance score is the unweighted arithmetic mean of
the category scores, rounded to the nearest integer (JavaScript
`Math.round`, half up), across the six categories the audit initializes; and
on the spec's example scores [100, 75, 90, 60, 85, 95] the reported score
is 84. -/
theorem compliance_mean (parse : String → Option Json)
    (owner repo timestamp : String) (targetData : RepositoryDataset)
    (boilerplateData commonConfigData : List FileRecord) :
    ((runAudit parse owner repo timestamp targetData boilerplateData
        commonConfigData).categories).length = 6 ∧
    (runAudit parse owner repo timestamp targetData boilerplateData
        commonConfigData).summary.complianceScore =
      round ((((((runAudit parse owner repo timestamp targetData boilerplateData
          commonConfigData).categories).map (fun q => q.2.score)).sum : ℤ) : ℚ) /
        ((((runAudit parse owner repo timestamp targetData boilerplateData
          commonConfigData).categories).length : ℕ) : ℚ)) ∧
    (calculateComplianceScore { emptyReport "o" "r" "t" with categories :=
        [("Repository Structure", { issues := [], score := 100 }),
         ("Dependencies & Package Management", { issues := [], score := 75 }),
         ("Build Configuration", { issues := [], score := 90 }),
         ("Code Quality & Standards", { issues := [], score := 60 }),
         ("Testing Setup", { issues := [], score := 85 }),
         ("Documentation", { issues := [], score := 95 })] }).summary.complianceScore
      = 84 := by
  have hlen6 : ((runAudit parse owner repo timestamp targetData boilerplateData
      commonConfigData).categories).length = 6 := by
    have hk := runAudit_keys parse owner repo timestamp targetData boilerplateData
      commonConfigData
    have hl := congrArg List.length hk
    rwa [List.length_map] at hl
  refine ⟨hlen6, ?_, by decide⟩
  have h6 : ((auditDocumentation targetData
      (auditTestingSetup parse targetData
        (auditCodeQualitySetup parse targetData commonConfigData
          (auditBuildConfiguration targetData
            (auditDependencyManagement parse targetData
              (auditPackageStructure parse targetData boilerplateData
                (emptyReport owner repo timestamp))))))).categories).length ≠ 0 := by
    have hl := hlen6
    rw [runAudit_def, calculateComplianceScore_categories] at hl
    omega
  rw [runAudit_def, calculateComplianceScore_categories]
  exact calc_compliance _ h6

theorem filter_medium_of_low (b : Bool) (x : Issue) (hx : x.severity = Severity.low) :
    (if b = true then [x] else []).filter (fun i => i.severity == Severity.medium) = [] := by
  cases b <;> simp [hx]

/-- C6 (amended).  If the root manifest parses to a JSON object whose
`devDependencies` holds `@dtsl/jest-config` with a truthy value, and none of
the other three required packages appears in `dependencies` or
`devDependencies`, then the Dependencies category's medium-severity findings
are exactly three, one per missing required package, each naming it. -/
theorem dependency_three_missing (parse : String → Option Json)
    (owner repo timestamp : String) (targetData : RepositoryDataset)
    (boilerplateData commonConfigData : List FileRecord)
    (rootPackage : FileRecord) (fields : List (String × Json))
    (h1 : targetData.packageFiles.find? (fun f => f.path == "package.json") =
      some rootPackage)
    (h2 : parse rootPackage.content = some (Json.obj fields))
    (h3 : jsTruthy (jgetOpt (jget (Json.obj fields) "devDependencies")
      "@dtsl/jest-config") = true)
    (h4 : ∀ d ∈ (["@dtsl/eslint-config", "@dtsl/prettier-config",
        "@dtsl/typescript-config"] : List String),
      jgetOpt (jget (Json.obj fields) "devDependencies") d = none ∧
      jgetOpt (jget (Json.obj fields) "dependencies") d = none) :
    (getCategory ((runAudit parse owner repo timestamp targetData boilerplateData
        commonConfigData).categories) CAT_DEPENDENCIES).map
        (fun cr => cr.issues.filter (fun i => i.severity == Severity.medium)) =
      some
        [{ severity := .medium,
           message := "Missing DTSL common dependency: @dtsl/eslint-config",
           description := "Should use DTSL common configurations for consistency",
           file := "package.json" },
         { severity := .medium,
           message := "Missing DTSL common dependency: @dtsl/prettier-config",
           description := "Should use DTSL common configurations for consistency",
           file := "package.json" },
         { severity := .medium,
           message := "Missing DTSL common dependency: @dtsl/typescript-config",
           description := "Should use DTSL common configurations for consistency",
           file := "package.json" }] := by
  rw [runAudit_dependencies]
  have he := h4 "@dtsl/eslint-config" (by simp)
  have hp := h4 "@dtsl/prettier-config" (by simp)
  have ht := h4 "@dtsl/typescript-config" (by simp)
  have hdeps : (dependencyIssues parse targetData).filter
      (fun i => i.severity == Severity.medium) =
      [{ severity := .medium,
         message := "Missing DTSL common dependency: @dtsl/eslint-config",
         description := "Should use DTSL common configurations for consistency",
         file := "package.json" },
       { severity := .medium,
         message := "Missing DTSL common dependency: @dtsl/prettier-config",
         description := "Should use DTSL common configurations for consistency",
         file := "package.json" },
       { severity := .medium,
         message := "Missing DTSL common dependency: @dtsl/typescript-config",
         description := "Should use DTSL common configurations for consistency",
         file := "package.json" }] := by
    unfold dependencyIssues
    rw [h1]
    dsimp only
    rw [h2]
    dsimp only [Json.isNull]
    simp only [Bool.false_eq_true, if_false, requiredDeps,
      List.filter_cons, List.filter_nil, h3, he.1, he.2, hp.1, hp.2, ht.1, ht.2]
    rw [List.filter_append, filter_medium_of_low _ _ rfl]
    simp only [Bool.not_true, Bool.false_and]
    decide
  simp only [Option.map_some']
  rw [hdeps]

/-- C6 counterexample to the claim as stated: the manifest's
`devDependencies` does contain `@dtsl/jest-config` (here with the falsy
value `""`), the other three required packages are absent from
`dependencies` and `devDependencies`, yet the Dependencies category holds
FOUR medium findings, not three — the truthiness test of the source counts a
falsy-valued present dependency as missing. -/
theorem dependency_counterexample :
    jgetOpt (jget (Json.obj [("devDependencies",
        Json.obj [("@dtsl/jest-config", Json.str "")])]) "devDependencies")
      "@dtsl/jest-config" = some (Json.str "") ∧
    (∀ d ∈ (["@dtsl/eslint-config", "@dtsl/prettier-config",
        "@dtsl/typescript-config"] : List String),
      jgetOpt (jget (Json.obj [("devDependencies",
          Json.obj [("@dtsl/jest-config", Json.str "")])]) "devDependencies") d = none ∧
      jgetOpt (jget (Json.obj [("devDependencies",
          Json.obj [("@dtsl/jest-config", Json.str "")])]) "dependencies") d = none) ∧
    (getCategory ((runAudit
        (fun s => if s == "CEXPKG" then
          some (Json.obj [("devDependencies",
            Json.obj [("@dtsl/jest-config", Json.str "")])]) else none)
        "o" "r" "t"
        { packageFiles := [{ path := "package.json", content := "CEXPKG",
                             size := 6, sha := "sha" }],
          configFiles := [],
          metadata := { owner := "o", repo := "r", fetchedAt := "t", totalFiles := 1 } }
        [] []).categories) CAT_DEPENDENCIES).map
      (fun cr => (cr.issues.filter (fun i => i.severity == Severity.medium)).length) =
      some 4 := by
  refine ⟨rfl, ?_, ?_⟩
  · intro d hd
    fin_cases hd <;> exact ⟨rfl, rfl⟩
  · decide

/-- C6 witness: the amended theorem applied to a concrete manifest holding
`@dtsl/jest-config : "1.0.0"`. -/
theorem dependency_three_missing_witness :
    ({ packageFiles := [{ path := "package.json", content := "WITPKG",
                          size := 6, sha := "sha" }],
       configFiles := [],
       metadata := { owner := "o", repo := "r", fetchedAt := "t", totalFiles := 1 } }
        : RepositoryDataset).packageFiles.find?
      (fun f => f.path == "package.json") =
      some { path := "package.json", content := "WITPKG", size := 6, sha := "sha" } ∧
    (fun s => if s == "WITPKG" then
        some (Json.obj [("devDependencies",
          Json.obj [("@dtsl/jest-config", Json.str "1.0.0")])]) else none) "WITPKG" =
      some (Json.obj [("devDependencies",
        Json.obj [("@dtsl/jest-config", Json.str "1.0.0")])]) ∧
    (getCategory ((runAudit
        (fun s => if s == "WITPKG" then
          some (Json.obj [("devDependencies",
            Json.obj [("@dtsl/jest-config", Json.str "1.0.0")])]) else none)
        "o" "r" "t"
        { packageFiles := [{ path := "package.json", content := "WITPKG",
                             size := 6, sha := "sha" }],
          configFiles := [],
          metadata := { owner := "o", repo := "r", fetchedAt := "t", totalFiles := 1 } }
        [] []).categories) CAT_DEPENDENCIES).map
        (fun cr => cr.issues.filter (fun i => i.severity == Severity.medium)) =
      some
        [{ severity := .medium,
           message := "Missing DTSL common dependency: @dtsl/eslint-config",
           description := "Should use DTSL common configurations for consistency",
           file := "package.json" },
         { severity := .medium,
           message := "Missing DTSL common dependency: @dtsl/prettier-config",
           description := "Should use DTSL common configurations for consistency",
           file := "package.json" },
         { severity := .medium,
           message := "Missing DTSL common dependency: @dtsl/typescript-config",
           description := "Should use DTSL common configurations for consistency",
           file := "package.json" }] :=
  ⟨by decide, rfl,
    dependency_three_missing _ "o" "r" "t" _ [] []
      { path := "package.json", content := "WITPKG", size := 6, sha := "sha" }
      [("devDependencies", Json.obj [("@dtsl/jest-config", Json.str "1.0.0")])]
      (by decide) rfl rfl
      (by intro d hd; fin_cases hd <;> exact ⟨rfl, rfl⟩)⟩

/-! ## Summary counters (claim C10) -/

/-- Initialize a list of categories in order, as `auditRepository` does one
per check. -/
def initCategories (r : AuditReport) (cats : List String) : AuditReport :=
  cats.foldl (fun acc c => initCategory acc c) r

/-- Apply a sequence of `addIssue` calls, each naming its category. -/
def recordAll (r : AuditReport) (adds : List (String × Issue)) : AuditReport :=
  adds.foldl (fun acc p => addIssue acc p.1 p.2) r

/-- The total number of findings held by the categories map. -/
def sumLens (m : List (String × CategoryResult)) : Nat :=
  (m.map (fun p => p.2.issues.length)).sum

theorem recordAll_totalIssues (adds : List (String × Issue)) :
    ∀ r : AuditReport,
      (recordAll r adds).summary.totalIssues = r.summary.totalIssues + adds.length := by
  induction adds with
  | nil => intro r; rfl
  | cons a rest ih =>
    intro r
    have step : recordAll r (a :: rest) = recordAll (addIssue r a.1 a.2) rest := rfl
    rw [step, ih, addIssue_summary]
    simp
    omega

theorem recordAll_keys (adds : List (String × Issue)) :
    ∀ r : AuditReport,
      (recordAll r adds).categories.map Prod.fst = r.categories.map Prod.fst := by
  induction adds with
  | nil => intro r; rfl
  | cons a rest ih =>
    intro r
    have step : recordAll r (a :: rest) = recordAll (addIssue r a.1 a.2) rest := rfl
    rw [step, ih, addIssue_keys]

theorem recordAll_counts (adds : List (String × Issue)) :
    ∀ r : AuditReport,
      (recordAll r adds).summary.criticalIssues = r.summary.criticalIssues +
        adds.countP (fun p => p.2.severity == Severity.critical) ∧
      (recordAll r adds).summary.highIssues = r.summary.highIssues +
        adds.countP (fun p => p.2.severity == Severity.high) ∧
      (recordAll r adds).summary.mediumIssues = r.summary.mediumIssues +
        adds.countP (fun p => p.2.severity == Severity.medium) ∧
      (recordAll r adds).summary.lowIssues = r.summary.lowIssues +
        adds.countP (fun p => p.2.severity == Severity.low) := by
  induction adds with
  | nil => intro r; exact ⟨rfl, rfl, rfl, rfl⟩
  | cons a rest ih =>
    intro r
    have step : recordAll r (a :: rest) = recordAll (addIssue r a.1 a.2) rest := rfl
    rcases ih (addIssue r a.1 a.2) with ⟨h1, h2, h3, h4⟩
    rw [step]
    rw [addIssue_summary] at h1 h2 h3 h4
    refine ⟨?_, ?_, ?_, ?_⟩ <;>
      · first
        | (rw [h1]; simp only [List.countP_cons]; cases ha : a.2.severity <;> simp [ha] <;> omega)
        | (rw [h2]; simp only [List.countP_cons]; cases ha : a.2.severity <;> simp [ha] <;> omega)
        | (rw [h3]; simp only [List.countP_cons]; cases ha : a.2.severity <;> simp [ha] <;> omega)
        | (rw [h4]; simp only [List.countP_cons]; cases ha : a.2.severity <;> simp [ha] <;> omega)

theorem updateCategory_not_any (m : List (String × CategoryResult)) (c : String)
    (f : CategoryResult → CategoryResult) (h : m.any (fun p => p.1 == c) = false) :
    updateCategory m c f = m := by
  induction m with
  | nil => rfl
  | cons p t ih =>
    simp only [List.any_cons, Bool.or_eq_false_iff] at h
    simp only [updateCategory, List.map_cons, h.1, Bool.false_eq_true, if_false]
    have := ih h.2
    simp only [updateCategory] at this
    rw [this]

theorem sumLens_update (m : List (String × CategoryResult)) (c : String) (i : Issue)
    (hcount : (m.map Prod.fst).count c = 1) :
    sumLens (updateCategory m c (fun cr => catStep cr i)) = sumLens m + 1 := by
  induction m with
  | nil => simp at hcount
  | cons p t ih =>
    by_cases hp : p.1 = c
    · have hc0 : (t.map Prod.fst).count c = 0 := by
        simp only [List.map_cons, List.count_cons, hp] at hcount
        simpa using hcount
      have hnotany : t.any (fun q => q.1 == c) = false := by
        rw [any_key]
        rw [List.count_eq_zero] at hc0
        rw [List.any_eq_false]
        intro s hs
        simp only [beq_iff_eq]
        intro hsc
        exact hc0 (hsc ▸ hs)
      have hb : (p.1 == c) = true := by simp [hp]
      simp only [updateCategory, List.map_cons, hb, if_true]
      have ht := updateCategory_not_any t c (fun cr => catStep cr i) hnotany
      simp only [updateCategory] at ht
      rw [ht]
      simp [sumLens, catStep]
      omega
    · have hb : (p.1 == c) = false := by simp [hp]
      have hcount2 : (t.map Prod.fst).count c = 1 := by
        simp only [List.map_cons, List.count_cons] at hcount
        simp [hp, Ne.symm hp] at hcount
        omega
      have := ih hcount2
      simp only [updateCategory, List.map_cons, hb, Bool.false_eq_true, if_false]
      simp only [updateCategory, sumLens, List.map_cons, List.sum_cons] at this ⊢
      omega

theorem recordAll_sumLens (adds : List (String × Issue)) :
    ∀ r : AuditReport, (∀ p ∈ adds, (r.categories.map Prod.fst).count p.1 = 1) →
      sumLens (recordAll r adds).categories = sumLens r.categories + adds.length := by
  induction adds with
  | nil => intro r _; rfl
  | cons a rest ih =>
    intro r h
    have step : recordAll r (a :: rest) = recordAll (addIssue r a.1 a.2) rest := rfl
    rw [step, ih (addIssue r a.1 a.2) ?hmem]
    case hmem =>
      intro p hp
      rw [addIssue_keys]
      exact h p (List.mem_cons_of_mem a hp)
    rw [addIssue_categories, sumLens_update _ _ _ (h a (List.mem_cons_self a rest))]
    simp only [List.length_cons]
    omega

theorem mem_setCategory (m : List (String × CategoryResult)) (k : String)
    (v : CategoryResult) (q : String × CategoryResult)
    (h : q ∈ setCategory m k v) : q ∈ m ∨ q = (k, v) := by
  unfold setCategory at h
  split at h
  · rcases List.mem_map.mp h with ⟨p, hp, hq⟩
    by_cases hpk : p.1 = k
    · right
      simp [hpk] at hq
      exact hq.symm
    · left
      simp [hpk] at hq
      exact hq ▸ hp
  · rcases List.mem_append.mp h with h1 | h1
    · exact Or.inl h1
    · right
      simpa using h1

theorem initCategories_summary (cats : List String) :
    ∀ r : AuditReport, (initCategories r cats).summary = r.summary := by
  induction cats with
  | nil => intro r; rfl
  | cons c cs ih =>
    intro r
    have step : initCategories r (c :: cs) = initCategories (initCategory r c) cs := rfl
    rw [step, ih]
    rfl

theorem keys_initCategories (cats : List String) :
    ∀ r : AuditReport,
      (∀ c ∈ cats, r.categories.any (fun p => p.1 == c) = false) → cats.Nodup →
      (initCategories r cats).categories.map Prod.fst =
        r.categories.map Prod.fst ++ cats := by
  induction cats with
  | nil => intro r _ _; simp [initCategories]
  | cons c cs ih =>
    intro r h hnd
    have step : initCategories r (c :: cs) = initCategories (initCategory r c) cs := rfl
    have hkeys : (initCategory r c).categories.map Prod.fst =
        r.categories.map Prod.fst ++ [c] :=
      keys_setCategory_fresh r.categories c _ (h c (List.mem_cons_self c cs))
    rw [step, ih (initCategory r c) ?fresh (List.Nodup.of_cons hnd)]
    case fresh =>
      intro c2 hc2
      rw [any_key, hkeys, List.any_append]
      have h1 : (r.categories.map Prod.fst).any (fun s => s == c2) = false := by
        rw [← any_key]
        exact h c2 (List.mem_cons_of_mem c hc2)
      have h2 : ([c].any fun s => s == c2) = false := by
        have : c ≠ c2 := by
          intro hcc
          exact (List.nodup_cons.mp hnd).1 (hcc ▸ hc2)
        simp [this]
      rw [h1, h2]
      rfl
    rw [hkeys]
    simp

theorem issues_empty_initCategories (cats : List String) :
    ∀ r : AuditReport, (∀ p ∈ r.categories, p.2.issues = []) →
      ∀ p ∈ (initCategories r cats).categories, p.2.issues = [] := by
  induction cats with
  | nil => intro r h; exact h
  | cons c cs ih =>
    intro r h
    have step : initCategories r (c :: cs) = initCategories (initCategory r c) cs := rfl
    rw [step]
    refine ih (initCategory r c) ?_
    intro p hp
    rcases mem_setCategory r.categories c _ p hp with hmem | heq
    · exact h p hmem
    · rw [heq]

theorem sumLens_of_empty (m : List (String × CategoryResult))
    (h : ∀ p ∈ m, p.2.issues = []) : sumLens m = 0 := by
  induction m with
  | nil => rfl
  | cons p t ih =>
    have hp := h p (List.mem_cons_self p t)
    simp only [sumLens, List.map_cons, List.sum_cons]
    rw [hp]
    simp only [List.length_nil, Nat.zero_add]
    exact ih (fun q hq => h q (List.mem_cons_of_mem p hq))

theorem countP_four_of_no_info (adds : List (String × Issue))
    (h : ∀ p ∈ adds, p.2.severity ≠ Severity.info) :
    adds.countP (fun p => p.2.severity == Severity.critical) +
      adds.countP (fun p => p.2.severity == Severity.high) +
      adds.countP (fun p => p.2.severity == Severity.medium) +
      adds.countP (fun p => p.2.severity == Severity.low) = adds.length := by
  induction adds with
  | nil => rfl
  | cons a rest ih =>
    have ha := h a (List.mem_cons_self a rest)
    have ihr := ih (fun p hp => h p (List.mem_cons_of_mem a hp))
    simp only [List.countP_cons, List.length_cons]
    cases hs : a.2.severity <;> simp [hs] at ha ⊢ <;> omega

theorem addIssue_info (r2 : AuditReport) (c : String) (i : Issue)
    (h : i.severity = Severity.info) :
    (addIssue r2 c i).summary.totalIssues = r2.summary.totalIssues + 1 ∧
    (addIssue r2 c i).summary.criticalIssues = r2.summary.criticalIssues ∧
    (addIssue r2 c i).summary.highIssues = r2.summary.highIssues ∧
    (addIssue r2 c i).summary.mediumIssues = r2.summary.mediumIssues ∧
    (addIssue r2 c i).summary.lowIssues = r2.summary.lowIssues ∧
    ((∀ p ∈ r2.categories, 0 ≤ p.2.score) → ∀ k : String,
      (getCategory (addIssue r2 c i).categories k).map (fun cr => cr.score) =
        (getCategory r2.categories k).map (fun cr => cr.score)) := by
  refine ⟨?_, ?_, ?_, ?_, ?_, ?_⟩
  · rw [addIssue_summary]
  · rw [addIssue_summary, h]; simp
  · rw [addIssue_summary, h]; simp
  · rw [addIssue_summary, h]; simp
  · rw [addIssue_summary, h]; simp
  · intro hpos k
    rw [addIssue_categories]
    by_cases hk : k = c
    · subst hk
      rw [getCategory_updateCategory_self]
      cases hf : getCategory r2.categories k with
      | none => rfl
      | some cr =>
        have hmem : ∃ q ∈ r2.categories, q.2 = cr := by
          unfold getCategory at hf
          cases hq : r2.categories.find? (fun p => p.1 == k) with
          | none => rw [hq] at hf; simp at hf
          | some q =>
            rw [hq] at hf
            simp at hf
            exact ⟨q, List.mem_of_find?_eq_some hq, hf⟩
        rcases hmem with ⟨q, hqmem, hq2⟩
        have hscore : 0 ≤ cr.score := hq2 ▸ hpos q hqmem
        simp only [Option.map_some', catStep, h, deduction]
        congr 1
        omega
    · rw [getCategory_updateCategory_ne _ _ _ _ hk]

/-- C10.  Starting from a fresh report with its categories initialized (as
`auditRepository` does), after any sequence of `addIssue` calls whose
categories exist, `summary.totalIssues` equals the total number of findings
held across all categories; if no added finding has severity `info`,
`totalIssues` also equals the sum of the four per-severity counters; and an
`info` finding increments `totalIssues` but no per-severity counter and, on
any report with nonnegative category scores, changes no category score. -/
theorem summary_counts_spec (owner repo timestamp : String) (cats : List String)
    (adds : List (String × Issue)) (hnd : cats.Nodup)
    (hmem : ∀ p ∈ adds, p.1 ∈ cats) :
    (recordAll (initCategories (emptyReport owner repo timestamp) cats)
        adds).summary.totalIssues =
      sumLens (recordAll (initCategories (emptyReport owner repo timestamp) cats)
        adds).categories ∧
    ((∀ p ∈ adds, p.2.severity ≠ Severity.info) →
      (recordAll (initCategories (emptyReport owner repo timestamp) cats)
          adds).summary.totalIssues =
        (recordAll (initCategories (emptyReport owner repo timestamp) cats)
            adds).summary.criticalIssues +
          (recordAll (initCategories (emptyReport owner repo timestamp) cats)
            adds).summary.highIssues +
          (recordAll (initCategories (emptyReport owner repo timestamp) cats)
            adds).summary.mediumIssues +
          (recordAll (initCategories (emptyReport owner repo timestamp) cats)
            adds).summary.lowIssues) ∧
    (∀ (r2 : AuditReport) (c : String) (i : Issue), i.severity = Severity.info →
      (addIssue r2 c i).summary.totalIssues = r2.summary.totalIssues + 1 ∧
      (addIssue r2 c i).summary.criticalIssues = r2.summary.criticalIssues ∧
      (addIssue r2 c i).summary.highIssues = r2.summary.highIssues ∧
      (addIssue r2 c i).summary.mediumIssues = r2.summary.mediumIssues ∧
      (addIssue r2 c i).summary.lowIssues = r2.summary.lowIssues ∧
      ((∀ p ∈ r2.categories, 0 ≤ p.2.score) → ∀ k : String,
        (getCategory (addIssue r2 c i).categories k).map (fun cr => cr.score) =
          (getCategory r2.categories k).map (fun cr => cr.score))) := by
  have hkeys : (initCategories (emptyReport owner repo timestamp)
      cats).categories.map Prod.fst = cats := by
    have := keys_initCategories cats (emptyReport owner repo timestamp)
      (fun c _ => rfl) hnd
    simpa using this
  have hsummary : (initCategories (emptyReport owner repo timestamp) cats).summary =
      (emptyReport owner repo timestamp).summary :=
    initCategories_summary cats _
  refine ⟨?_, ?_, addIssue_info⟩
  · rw [recordAll_totalIssues, hsummary]
    rw [recordAll_sumLens adds _ ?hcount]
    case hcount =>
      intro p hp
      rw [hkeys]
      exact List.count_eq_one_of_mem hnd (hmem p hp)
    rw [sumLens_of_empty _ (issues_empty_initCategories cats _ (fun p hp => by
      simp [emptyReport] at hp))]
    rfl
  · intro hninfo
    rcases recordAll_counts adds (initCategories (emptyReport owner repo timestamp)
      cats) with ⟨h1, h2, h3, h4⟩
    rw [recordAll_totalIssues, h1, h2, h3, h4, hsummary]
    have := countP_four_of_no_info adds hninfo
    simp only [emptyReport]
    omega

/-- C10 witness: one initialized category, one `info` addition. -/
theorem summary_counts_spec_witness :
    (["Repository Structure"] : List String).Nodup ∧
    (∀ p ∈ ([("Repository Structure",
        ({ severity := .info, message := "m", description := "d", file := "f" } : Issue))] :
        List (String × Issue)), p.1 ∈ (["Repository Structure"] : List String)) ∧
    (recordAll (initCategories (emptyReport "o" "r" "t") ["Repository Structure"])
        [("Repository Structure",
          { severity := .info, message := "m", description := "d", file := "f" })]).summary.totalIssues =
      sumLens (recordAll (initCategories (emptyReport "o" "r" "t") ["Repository Structure"])
        [("Repository Structure",
          { severity := .info, message := "m", description := "d", file := "f" })]).categories :=
  ⟨by decide, by decide,
    (summary_counts_spec "o" "r" "t" ["Repository Structure"]
      [("Repository Structure",
        { severity := .info, message := "m", description := "d", file := "f" })]
      (by decide) (by decide)).1⟩

/-- C3 witness: a dataset with no package files at all. -/
theorem structure_missing_root_witness :
    (∀ f ∈ ([] : List FileRecord), f.path ≠ "package.json") ∧
    getCategory ((runAudit (fun _ => none) "o" "r" "t"
        { packageFiles := [], configFiles := [],
          metadata := { owner := "o", repo := "r", fetchedAt := "t", totalFiles := 0 } }
        [] []).categories) CAT_STRUCTURE =
      some { issues := [{ severity := .critical,
                          message := "Missing root package.json file",
                          description := "Every monorepo should have a root package.json file",
                          file := "package.json" }],
             score := 75 } :=
  ⟨by simp,
    (structure_missing_root (fun _ => none) "o" "r" "t"
      { packageFiles := [], configFiles := [],
        metadata := { owner := "o", repo := "r", fetchedAt := "t", totalFiles := 0 } }
      [] [] (by simp)).1⟩

/-! ## Claims about the GitHub client -/

/-- C4 (amended).  No listing or file-read failure, of any kind —
`NotFoundError` or not — aborts the chunked collection: the client helpers
catch every raised error, a failed listing yields zero entries, a failed
read yields `null`, and `getRepositoryDataChunked` always returns a dataset
(`ok`), never an error. -/
theorem collection_never_aborts :
    (∀ (env : GhEnv) (owner repo fetchedAt : String),
      getRepositoryDataChunked env owner repo fetchedAt =
        .ok { packageFiles := getPackageJsonFiles env,
              configFiles := getConfigFiles env,
              metadata := { owner := owner, repo := repo, fetchedAt := fetchedAt,
                            totalFiles := (getPackageJsonFiles env).length +
                              (getConfigFiles env).length } }) ∧
    (∀ (env : GhEnv) (path : String) (e : GhError),
      env.getContent path = .error e →
        getRepositoryStructure env path = [] ∧ getFileContent env path = none) := by
  refine ⟨fun env owner repo fetchedAt => rfl, fun env path e h => ⟨?_, ?_⟩⟩
  · unfold getRepositoryStructure
    rw [h]
  · unfold getFileContent
    rw [h]

/-- C4 witness for the amended theorem: a `NotFoundError` on an optional
directory yields zero entries and no abort. -/
theorem collection_never_aborts_witness :
    (GhEnv.mk (fun _ => Except.error GhError.notFound)).getContent "apps" =
      .error GhError.notFound ∧
    (getRepositoryStructure (GhEnv.mk (fun _ => Except.error GhError.notFound)) "apps" = [] ∧
     getFileContent (GhEnv.mk (fun _ => Except.error GhError.notFound)) "apps" = none) :=
  ⟨rfl, collection_never_aborts.2 (GhEnv.mk (fun _ => Except.error GhError.notFound))
    "apps" GhError.notFound rfl⟩

/-- C4 counterexample to the claim as stated: a `TransientError` raised
while reading `package.json` does not abort the collection nor propagate —
the call still returns `ok`, with the file silently dropped. -/
theorem collection_counterexample :
    (GhEnv.mk (fun p => if p == "package.json" then Except.error GhError.transient
        else Except.error GhError.notFound)).getContent "package.json" =
      .error GhError.transient ∧
    getRepositoryDataChunked
      (GhEnv.mk (fun p => if p == "package.json" then Except.error GhError.transient
        else Except.error GhError.notFound)) "acme" "app" "now" =
      .ok { packageFiles := [], configFiles := [],
            metadata := { owner := "acme", repo := "app", fetchedAt := "now",
                          totalFiles := 0 } } := by
  exact ⟨rfl, rfl⟩

/-- Any record `getFileContent` returns respects the size cap. -/
theorem getFileContent_size (env : GhEnv) (p : String) (f : FileRecord)
    (h : getFileContent env p = some f) : f.size ≤ maxFileSize := by
  unfold getFileContent at h
  cases hc : env.getContent p with
  | error e => rw [hc] at h; exact absurd h (by simp)
  | ok resp =>
    rw [hc] at h
    cases resp with
    | many items => exact absurd h (by simp)
    | one d =>
      dsimp only at h
      by_cases hs : d.size > maxFileSize
      · rw [if_pos hs] at h
        exact absurd h (by simp)
      · rw [if_neg hs] at h
        have : f = { path := d.path, content := d.content, size := d.size, sha := d.sha } := by
          exact (Option.some.injEq _ _ ▸ h).symm
        rw [this]
        dsimp only
        omega

theorem mem_getPackageJsonFiles (env : GhEnv) (f : FileRecord)
    (h : f ∈ getPackageJsonFiles env) : ∃ p, getFileContent env p = some f := by
  unfold getPackageJsonFiles at h
  rcases List.mem_append.mp h with h1 | h1
  · rcases List.mem_append.mp h1 with h2 | h2
    · cases hm : getFileContent env "package.json" with
      | none => rw [hm] at h2; simp at h2
      | some r =>
        rw [hm] at h2
        simp at h2
        exact ⟨"package.json", h2 ▸ hm⟩
    · rcases List.mem_filterMap.mp h2 with ⟨item, _, hit⟩
      by_cases hd : item.type == "dir"
      · rw [if_pos hd] at hit
        exact ⟨item.path ++ "/package.json", hit⟩
      · rw [if_neg hd] at hit
        simp at hit
  · rcases List.mem_filterMap.mp h1 with ⟨item, _, hit⟩
    by_cases hd : item.type == "dir"
    · rw [if_pos hd] at hit
      exact ⟨item.path ++ "/package.json", hit⟩
    · rw [if_neg hd] at hit
      simp at hit

theorem mem_getConfigFilesLoop (env : GhEnv) :
    ∀ (items : List RemoteItem) (acc : List FileRecord) (f : FileRecord),
      f ∈ (getConfigFilesLoop env items acc).1 →
      f ∈ acc ∨ ∃ p, getFileContent env p = some f := by
  intro items
  induction items with
  | nil =>
    intro acc f h
    exact Or.inl h
  | cons item rest ih =>
    intro acc f h
    unfold getConfigFilesLoop at h
    by_cases ht : item.type == "file"
    · rw [if_pos ht] at h
      cases hm : matchesPattern item.name configPatterns with
      | none => rw [hm] at h; exact Or.inl h
      | some b =>
        cases b with
        | true =>
          rw [hm] at h
          cases hf : getFileContent env item.path with
          | some fc =>
            rw [hf] at h
            rcases ih _ f h with hacc | hex
            · rcases List.mem_append.mp hacc with h2 | h2
              · exact Or.inl h2
              · simp at h2
                exact Or.inr ⟨item.path, h2 ▸ hf⟩
            · exact Or.inr hex
          | none =>
            rw [hf] at h
            exact ih _ f h
        | false =>
          rw [hm] at h
          exact ih _ f h
    · rw [if_neg ht] at h
      exact ih _ f h

theorem mem_getConfigFiles (env : GhEnv) (f : FileRecord)
    (h : f ∈ getConfigFiles env) : ∃ p, getFileContent env p = some f := by
  unfold getConfigFiles at h
  by_cases hab : (getConfigFilesLoop env (getRepositoryStructure env "") []).2
  · rw [if_pos hab] at h
    rcases mem_getConfigFilesLoop env _ _ f h with hacc | hex
    · simp at hacc
    · exact hex
  · rw [if_neg hab] at h
    rcases List.mem_append.mp h with h1 | h1
    · rcases mem_getConfigFilesLoop env _ _ f h1 with hacc | hex
      · simp at hacc
      · exact hex
    · rcases List.mem_filterMap.mp h1 with ⟨item, _, hit⟩
      by_cases hd : item.type == "file"
      · rw [if_pos hd] at hit
        exact ⟨item.path, hit⟩
      · rw [if_neg hd] at hit
        simp at hit

/-- C5.  Every file record of the dataset returned by the chunked collection
has size at most the configured maximum: oversized files are dropped whole
before entering the dataset. -/
theorem dataset_size_bound (env : GhEnv) (owner repo fetchedAt : String)
    (d : RepositoryDataset)
    (h : getRepositoryDataChunked env owner repo fetchedAt = .ok d) :
    ∀ f : FileRecord, f ∈ d.packageFiles ∨ f ∈ d.configFiles →
      f.size ≤ maxFileSize := by
  intro f hf
  have hd : d = { packageFiles := getPackageJsonFiles env,
                  configFiles := getConfigFiles env,
                  metadata := { owner := owner, repo := repo, fetchedAt := fetchedAt,
                                totalFiles := (getPackageJsonFiles env).length +
                                  (getConfigFiles env).length } } := by
    have := collection_never_aborts.1 env owner repo fetchedAt
    rw [h] at this
    exact (Except.ok.injEq _ _ ▸ this)
  subst hd
  rcases hf with hm | hm
  · rcases mem_getPackageJsonFiles env f hm with ⟨p, hp⟩
    exact getFileContent_size env p f hp
  · rcases mem_getConfigFiles env f hm with ⟨p, hp⟩
    exact getFileContent_size env p f hp

/-- A one-file remote used to witness the size bound. -/
def itemPkg : RemoteItem :=
  { name := "package.json", path := "package.json", type := "file", size := 10,
    content := "x", sha := "sha" }

/-- The environment serving only `itemPkg` at `package.json`. -/
def envOneFile : GhEnv :=
  GhEnv.mk (fun p => if p == "package.json" then Except.ok (ContentResp.one itemPkg)
    else Except.error GhError.notFound)

/-- C5 witness: a one-file repository; the file is in the dataset and within
the cap. -/
theorem dataset_size_bound_witness :
    getRepositoryDataChunked envOneFile "o" "r" "t" =
      .ok { packageFiles := [{ path := "package.json", content := "x", size := 10,
                               sha := "sha" }],
            configFiles := [],
            metadata := { owner := "o", repo := "r", fetchedAt := "t",
                          totalFiles := 1 } } ∧
    ({ path := "package.json", content := "x", size := 10, sha := "sha" } :
        FileRecord).size ≤ maxFileSize :=
  ⟨rfl,
    dataset_size_bound envOneFile "o" "r" "t" _ rfl
      { path := "package.json", content := "x", size := 10, sha := "sha" }
      (Or.inl (List.mem_singleton.mpr rfl))⟩

theorem getFileContent_some_one (env : GhEnv) (p : String) (f : FileRecord)
    (h : getFileContent env p = some f) :
    ∃ d : RemoteItem, env.getContent p = .ok (.one d) := by
  unfold getFileContent at h
  cases hc : env.getContent p with
  | error e => rw [hc] at h; exact absurd h (by simp)
  | ok resp =>
    cases resp with
    | many items => rw [hc] at h; exact absurd h (by simp)
    | one d => exact ⟨d, rfl⟩

/-- C7.  On a consistent remote (no directory entry answers with file
content), every record returned by `getCommonConfig` comes from a root entry
of type `file` whose name ends in `.json` or `.js`, and every such entry
whose fetch succeeds (within the size cap) contributes its record. -/
theorem getCommonConfig_spec (env : GhEnv)
    (hcons : ∀ item ∈ getRepositoryStructure env "", item.type ≠ "file" →
      ∀ d : RemoteItem, env.getContent item.path ≠ .ok (.one d)) :
    (∀ fr ∈ getCommonConfig env, ∃ item ∈ getRepositoryStructure env "",
        item.type = "file" ∧
        (strEndsWith item.name ".json" = true ∨ strEndsWith item.name ".js" = true) ∧
        getFileContent env item.path = some fr) ∧
    (∀ item ∈ getRepositoryStructure env "", item.type = "file" →
      (strEndsWith item.name ".json" = true ∨ strEndsWith item.name ".js" = true) →
      ∀ fr : FileRecord, getFileContent env item.path = some fr →
        fr ∈ getCommonConfig env) := by
  constructor
  · intro fr hfr
    unfold getCommonConfig at hfr
    rcases List.mem_filterMap.mp hfr with ⟨item, hmem, hit⟩
    by_cases hcond : ((item.type == "file" && strEndsWith item.name ".json")
        || strEndsWith item.name ".js") = true
    · rw [if_pos hcond] at hit
      have htype : item.type = "file" := by
        by_contra hne
        rcases getFileContent_some_one env item.path fr hit with ⟨d, hd⟩
        exact hcons item hmem hne d hd
      refine ⟨item, hmem, htype, ?_, hit⟩
      rcases Bool.or_eq_true_iff.mp hcond with hj | hjs
      · exact Or.inl (Bool.and_eq_true_iff.mp hj).2
      · exact Or.inr hjs
    · rw [if_neg hcond] at hit
      simp at hit
  · intro item hmem htype hends fr hfr
    unfold getCommonConfig
    refine List.mem_filterMap.mpr ⟨item, hmem, ?_⟩
    have hcond : ((item.type == "file" && strEndsWith item.name ".json")
        || strEndsWith item.name ".js") = true := by
      rcases hends with hj | hjs
      · exact Bool.or_eq_true_iff.mpr
          (Or.inl (Bool.and_eq_true_iff.mpr ⟨by simp [htype], hj⟩))
      · exact Bool.or_eq_true_iff.mpr (Or.inr hjs)
    rw [if_pos hcond]
    exact hfr

/-- The root file of the common-config witness remote. -/
def itemAJson : RemoteItem :=
  { name := "a.json", path := "a.json", type := "file", size := 5,
    content := "x", sha := "s" }

/-- The common-config witness remote: one root file `a.json`. -/
def envCommon : GhEnv :=
  GhEnv.mk (fun p => if p == "" then Except.ok (ContentResp.many [itemAJson])
    else if p == "a.json" then Except.ok (ContentResp.one itemAJson)
    else Except.error GhError.notFound)

/-- C7 witness: on the one-file remote the consistency hypothesis holds and
the `a.json` record is returned. -/
theorem getCommonConfig_spec_witness :
    (∀ item ∈ (getRepositoryStructure envCommon ""), item.type ≠ "file" →
      ∀ d : RemoteItem, envCommon.getContent item.path ≠ .ok (.one d)) ∧
    ({ path := "a.json", content := "x", size := 5, sha := "s" } : FileRecord) ∈
      getCommonConfig envCommon := by
  have hcons : ∀ item ∈ (getRepositoryStructure envCommon ""), item.type ≠ "file" →
      ∀ d : RemoteItem, envCommon.getContent item.path ≠ .ok (.one d) := by
    intro item hitem htype
    have hi : item = itemAJson := by
      simpa [envCommon, getRepositoryStructure] using hitem
    rw [hi] at htype
    exact absurd rfl htype
  refine ⟨hcons, ?_⟩
  exact (getCommonConfig_spec envCommon hcons).2 itemAJson
    (by simp [envCommon, getRepositoryStructure]) rfl (Or.inl rfl)
    { path := "a.json", content := "x", size := 5, sha := "s" } rfl

/-! ## Claim C8: the pattern matcher -/

/-- Declarative (anchored, whole-list) semantics of the modelled regex
fragment: `lit` matches its character, `dot` any character, a starred
element zero or more repetitions of its atom. -/
inductive RMatch : List RItem → List Char → Prop where
  | nil : RMatch [] []
  | cons {a : RAtom} {rs : List RItem} {c : Char} {cs : List Char} :
      matchAtom a c = true → RMatch rs cs →
      RMatch ({ atom := a, starred := false } :: rs) (c :: cs)
  | starSkip {a : RAtom} {rs : List RItem} {cs : List Char} :
      RMatch rs cs → RMatch ({ atom := a, starred := true } :: rs) cs
  | starCons {a : RAtom} {rs : List RItem} {c : Char} {cs : List Char} :
      matchAtom a c = true → RMatch ({ atom := a, starred := true } :: rs) cs →
      RMatch ({ atom := a, starred := true } :: rs) (c :: cs)

theorem matchHereFuel_iff :
    ∀ (n : Nat) (rs : List RItem) (cs : List Char), rs.length + cs.length < n →
      (matchHereFuel n rs cs = true ↔
        ∃ mid post : List Char, cs = mid ++ post ∧ RMatch rs mid) := by
  intro n
  induction n with
  | zero =>
    intro rs cs hlt
    omega
  | succ n ih =>
    intro rs cs hlt
    cases rs with
    | nil =>
      simp only [matchHereFuel]
      constructor
      · intro _
        exact ⟨[], cs, rfl, .nil⟩
      · intro _
        trivial
    | cons i rs2 =>
      rcases i with ⟨a, st⟩
      cases st with
      | false =>
        simp only [matchHereFuel, Bool.false_eq_true, if_false]
        cases cs with
        | nil =>
          constructor
          · intro h
            exact absurd h (by simp)
          · rintro ⟨mid, post, hmp, hR⟩
            have hmid : mid = [] := by
              cases mid with
              | nil => rfl
              | cons x xs => simp at hmp
            rw [hmid] at hR
            cases hR
        | cons c cs2 =>
          rw [Bool.and_eq_true_iff,
            ih rs2 cs2 (by simp at hlt ⊢; omega)]
          constructor
          · rintro ⟨ha, mid, post, rfl, hR⟩
            exact ⟨c :: mid, post, rfl, .cons ha hR⟩
          · rintro ⟨mid, post, hmp, hR⟩
            cases hR with
            | cons ha hR2 =>
              rename_i c2 cs3
              have hc : c2 = c ∧ cs3 ++ post = cs2 := by
                rw [List.cons_append] at hmp
                exact ⟨(List.cons.injEq _ _ _ _ ▸ hmp).1.symm,
                  ((List.cons.injEq _ _ _ _ ▸ hmp).2).symm⟩
              exact ⟨hc.1 ▸ ha, cs3, post, hc.2.symm, hR2⟩
      | true =>
        simp only [matchHereFuel, if_true]
        rw [Bool.or_eq_true_iff]
        constructor
        · intro h
          rcases h with h | h
          · rcases (ih rs2 cs (by simp at hlt ⊢; omega)).mp h with ⟨mid, post, rfl, hR⟩
            exact ⟨mid, post, rfl, .starSkip hR⟩
          · cases cs with
            | nil => exact absurd h (by simp)
            | cons c cs2 =>
              rcases Bool.and_eq_true_iff.mp h with ⟨ha, hm⟩
              rcases (ih ({ atom := a, starred := true } :: rs2) cs2
                  (by simp at hlt ⊢; omega)).mp hm with ⟨mid, post, rfl, hR⟩
              exact ⟨c :: mid, post, rfl, .starCons ha hR⟩
        · rintro ⟨mid, post, hmp, hR⟩
          cases hR with
          | starSkip hR2 =>
            exact Or.inl ((ih rs2 cs (by simp at hlt ⊢; omega)).mpr
              ⟨mid, post, hmp, hR2⟩)
          | starCons ha hR2 =>
            rename_i c2 cs3
            cases cs with
            | nil => simp at hmp
            | cons c cs2 =>
              rw [List.cons_append] at hmp
              have hc2 : c2 = c := (List.cons.injEq _ _ _ _ ▸ hmp).1.symm
              have hcs : cs3 ++ post = cs2 := ((List.cons.injEq _ _ _ _ ▸ hmp).2).symm
              refine Or.inr ?_
              rw [Bool.and_eq_true_iff]
              refine ⟨hc2 ▸ ha, ?_⟩
              exact (ih ({ atom := a, starred := true } :: rs2) cs2
                (by simp at hlt ⊢; omega)).mpr ⟨cs3, post, hcs.symm, hR2⟩

theorem matchHere_iff (rs : List RItem) (cs : List Char) :
    matchHere rs cs = true ↔
      ∃ mid post : List Char, cs = mid ++ post ∧ RMatch rs mid :=
  matchHereFuel_iff (rs.length + cs.length + 1) rs cs (by omega)

theorem regexTest_iff (r : List RItem) (s : String) :
    regexTest r s = true ↔
      ∃ pre mid post : List Char, s.toList = pre ++ mid ++ post ∧ RMatch r mid := by
  unfold regexTest
  rw [List.any_eq_true]
  constructor
  · rintro ⟨t, ht, hm⟩
    rcases (List.mem_tails _ _).mp ht with ⟨pre, hpre⟩
    rcases (matchHere_iff r t).mp hm with ⟨mid, post, rfl, hR⟩
    exact ⟨pre, mid, post, by rw [← hpre, List.append_assoc], hR⟩
  · rintro ⟨pre, mid, post, hs, hR⟩
    refine ⟨mid ++ post, ?_, ?_⟩
    · exact (List.mem_tails _ _).mpr ⟨pre, by rw [hs, List.append_assoc]⟩
    · exact (matchHere_iff r _).mpr ⟨mid, post, rfl, hR⟩

/-- C8 (amended).  When every pattern of the list compiles (no `RegExp`
syntax error), `matchesPattern` returns true exactly when some pattern,
compiled by replacing only its FIRST `*` with `.*` and read as a regex in
which `.` matches any single character, a starred element repeats its atom,
and every other character is literal, matches some contiguous substring of
the filename (the unanchored `test`). -/
theorem matchesPattern_spec (filename : String) (patterns : List String)
    (h : ∀ p ∈ patterns, (compilePattern p).isSome = true) :
    matchesPattern filename patterns = some true ↔
      ∃ p ∈ patterns, ∃ r, compilePattern p = some r ∧
        ∃ pre mid post : List Char,
          filename.toList = pre ++ mid ++ post ∧ RMatch r mid := by
  induction patterns with
  | nil => simp [matchesPattern]
  | cons q ps ih =>
    rcases Option.isSome_iff_exists.mp (h q (List.mem_cons_self q ps)) with ⟨r, hr⟩
    have hps : ∀ p ∈ ps, (compilePattern p).isSome = true :=
      fun p hp => h p (List.mem_cons_of_mem q hp)
    unfold matchesPattern
    rw [hr]
    dsimp only
    by_cases ht : regexTest r filename = true
    · rw [if_pos ht]
      constructor
      · intro _
        rcases (regexTest_iff r filename).mp ht with ⟨pre, mid, post, hs, hR⟩
        exact ⟨q, List.mem_cons_self q ps, r, hr, pre, mid, post, hs, hR⟩
      · intro _
        rfl
    · rw [if_neg ht]
      rw [ih hps]
      constructor
      · rintro ⟨p, hp, hrest⟩
        exact ⟨p, List.mem_cons_of_mem q hp, hrest⟩
      · rintro ⟨p, hp, r2, hr2, pre, mid, post, hs, hR⟩
        rcases List.mem_cons.mp hp with rfl | hp2
        · rw [hr] at hr2
          have hrr : r2 = r := by
            exact (Option.some.injEq _ _ ▸ hr2).symm
          rw [hrr] at hR
          exact absurd ((regexTest_iff r filename).mpr ⟨pre, mid, post, hs, hR⟩) ht
        · exact ⟨p, hp2, r2, hr2, pre, mid, post, hs, hR⟩

/-- C8 counterexample to the claim as stated: under the claim's semantics —
every `*` a wildcard, every other character literal, unanchored membership —
the pattern `turbo.json` does not match the filename `turboXjson`; the
source's `matchesPattern` nevertheless returns true, because the unescaped
`.` of the pattern is a regex any-character, not a literal dot. -/
theorem matchesPattern_counterexample :
    matchesPattern "turboXjson" ["turbo.json"] = some true ∧
    claimMatchesPattern "turboXjson" ["turbo.json"] = false := by
  constructor
  · decide
  · decide

/-- C8 witness for the amended theorem: the pattern list compiles and the
characterization holds at `turbo.json` vs itself. -/
theorem matchesPattern_spec_witness :
    (∀ p ∈ (["turbo.json"] : List String), (compilePattern p).isSome = true) ∧
    (matchesPattern "turbo.json" ["turbo.json"] = some true ↔
      ∃ p ∈ (["turbo.json"] : List String), ∃ r, compilePattern p = some r ∧
        ∃ pre mid post : List Char,
          ("turbo.json" : String).toList = pre ++ mid ++ post ∧ RMatch r mid) :=
  ⟨by decide, matchesPattern_spec "turbo.json" ["turbo.json"] (by decide)⟩
